import Mathlib

/-!
Verification of the roster collection and migration tools of the
cangjie-repo-robot repository (tools/collect_gitcode_members.py,
tools/refresh_member_roles.py, tools/migrate_remove_committer_auto.py,
tools/migrate_team_to_groups_only.py, tools/refresh_realname_from_email.py).

The scripts manipulate JSON documents loaded with Python's json module, so
the embedding works over a type `JVal` of JSON values.  Python dicts are
modelled as insertion-ordered association lists (JSON documents never
contain duplicate keys, and `json.load` deduplicates them, so every dict
reaching the code has unique keys; the list operations below agree with
Python dict semantics on such states).
-/

/-- JSON values as produced by Python's `json.load`: the dynamic values the
scripts manipulate.  Objects keep key order (Python dicts are
insertion-ordered). -/
inductive JVal where
  | null
  | bool (b : Bool)
  | num (n : Int)
  | str (s : String)
  | arr (xs : List JVal)
  | obj (kvs : List (String × JVal))

mutual

/-- Structural boolean equality on JSON values. -/
def JVal.beq : JVal → JVal → Bool
  | .null, .null => true
  | .bool a, .bool b => a == b
  | .num a, .num b => a == b
  | .str a, .str b => a == b
  | .arr xs, .arr ys => JVal.beqArr xs ys
  | .obj xs, .obj ys => JVal.beqObj xs ys
  | _, _ => false

/-- Boolean equality on JSON arrays. -/
def JVal.beqArr : List JVal → List JVal → Bool
  | [], [] => true
  | x :: xs, y :: ys => JVal.beq x y && JVal.beqArr xs ys
  | _, _ => false

/-- Boolean equality on JSON object entry lists. -/
def JVal.beqObj : List (String × JVal) → List (String × JVal) → Bool
  | [], [] => true
  | (k, v) :: xs, (k', v') :: ys => k == k' && JVal.beq v v' && JVal.beqObj xs ys
  | _, _ => false

end

mutual

theorem JVal.beq_iff : ∀ a b : JVal, JVal.beq a b = true ↔ a = b
  | .null, b => by cases b <;> simp [JVal.beq]
  | .bool x, b => by cases b <;> simp [JVal.beq]
  | .num x, b => by cases b <;> simp [JVal.beq]
  | .str x, b => by cases b <;> simp [JVal.beq]
  | .arr xs, b => by
      cases b <;> simp [JVal.beq]
      exact JVal.beqArr_iff xs _
  | .obj xs, b => by
      cases b <;> simp [JVal.beq]
      exact JVal.beqObj_iff xs _

theorem JVal.beqArr_iff : ∀ xs ys : List JVal, JVal.beqArr xs ys = true ↔ xs = ys
  | [], ys => by cases ys <;> simp [JVal.beqArr]
  | x :: xs, ys => by
      cases ys with
      | nil => simp [JVal.beqArr]
      | cons y ys =>
          simp [JVal.beqArr, JVal.beq_iff x y, JVal.beqArr_iff xs ys]

theorem JVal.beqObj_iff :
    ∀ xs ys : List (String × JVal), JVal.beqObj xs ys = true ↔ xs = ys
  | [], ys => by cases ys <;> simp [JVal.beqObj]
  | (k, v) :: xs, ys => by
      cases ys with
      | nil => simp [JVal.beqObj]
      | cons y ys =>
          obtain ⟨k', v'⟩ := y
          simp [JVal.beqObj, JVal.beq_iff v v', JVal.beqObj_iff xs ys, and_assoc]

end

instance : DecidableEq JVal := fun a b => decidable_of_iff _ (JVal.beq_iff a b)

/-- Entry list of a JSON object (empty for non-objects; the scripts only
reach the dict operations with actual dicts). -/
def JVal.objKvs : JVal → List (String × JVal)
  | .obj kvs => kvs
  | _ => []

/-! ### Python dict operations on ordered association lists -/

/-- Python `d.get(k)` / `d[k]` lookup. -/
def lookupKV : List (String × JVal) → String → Option JVal
  | [], _ => none
  | (k', v) :: t, k => if k' = k then some v else lookupKV t k

/-- Python `d[k] = v`: replace in place if the key exists (keeping its
position, as Python dicts do), otherwise append at the end. -/
def setKV : List (String × JVal) → String → JVal → List (String × JVal)
  | [], k, v => [(k, v)]
  | (k', v') :: t, k, v => if k' = k then (k, v) :: t else (k', v') :: setKV t k v

/-- Python `d.pop(k, None)`: drop the key.  Dicts never hold duplicate keys,
so removing every occurrence agrees with Python. -/
def popKV : List (String × JVal) → String → List (String × JVal)
  | [], _ => []
  | (k', v) :: t, k => if k' = k then popKV t k else (k', v) :: popKV t k

/-- Python `d.setdefault(k, v)`. -/
def sdKV (kvs : List (String × JVal)) (k : String) (v : JVal) :
    List (String × JVal) :=
  match lookupKV kvs k with
  | some _ => kvs
  | none => kvs ++ [(k, v)]

/-- Python `k in d`. -/
def containsKV (kvs : List (String × JVal)) (k : String) : Bool :=
  (lookupKV kvs k).isSome

/-- Python `d.get(k)` on a JSON value (None when the value is not a dict;
in the scripts this situation is ruled out by upstream isinstance checks). -/
def jGet (d : JVal) (k : String) : Option JVal :=
  match d with
  | .obj kvs => lookupKV kvs k
  | _ => none

@[simp] theorem lookupKV_setKV (kvs : List (String × JVal)) (k k' : String) (v : JVal) :
    lookupKV (setKV kvs k v) k' = if k = k' then some v else lookupKV kvs k' := by
  induction kvs with
  | nil => by_cases h : k = k' <;> simp [setKV, lookupKV, h]
  | cons kv t ih =>
      obtain ⟨k₀, v₀⟩ := kv
      by_cases h₀ : k₀ = k <;> by_cases h₁ : k₀ = k'
      · have hk : k = k' := h₀.symm.trans h₁
        have ih' := ih
        simp only [hk] at ih'
        simp [setKV, lookupKV, h₀, h₁, ih', hk]
      · have hk : ¬ k = k' := fun hh => h₁ (h₀.trans hh)
        have hks : ¬ k' = k := fun hh => hk hh.symm
        simp [setKV, lookupKV, h₀, h₁, ih, hk, hks]
      · have hk : ¬ k = k' := fun hh => h₀ (h₁.trans hh.symm)
        have hks : ¬ k' = k := fun hh => hk hh.symm
        simp [setKV, lookupKV, h₀, h₁, ih, hk, hks]
      · by_cases hk : k = k'
        · have ih' := ih
          simp only [hk] at ih'
          simp [setKV, lookupKV, h₀, h₁, ih', hk]
        · have hks : ¬ k' = k := fun hh => hk hh.symm
          simp [setKV, lookupKV, h₀, h₁, ih, hk, hks]

@[simp] theorem lookupKV_popKV (kvs : List (String × JVal)) (k k' : String) :
    lookupKV (popKV kvs k) k' = if k = k' then none else lookupKV kvs k' := by
  induction kvs with
  | nil => simp [popKV, lookupKV]
  | cons kv t ih =>
      obtain ⟨k₀, v₀⟩ := kv
      by_cases h₀ : k₀ = k <;> by_cases h₁ : k₀ = k'
      · have hk : k = k' := h₀.symm.trans h₁
        have ih' := ih
        simp only [hk] at ih'
        simp [popKV, lookupKV, h₀, h₁, ih', hk]
      · have hk : ¬ k = k' := fun hh => h₁ (h₀.trans hh)
        have hks : ¬ k' = k := fun hh => hk hh.symm
        simp [popKV, lookupKV, h₀, h₁, ih, hk, hks]
      · have hk : ¬ k = k' := fun hh => h₀ (h₁.trans hh.symm)
        have hks : ¬ k' = k := fun hh => hk hh.symm
        simp [popKV, lookupKV, h₀, h₁, ih, hk, hks]
      · by_cases hk : k = k'
        · have ih' := ih
          simp only [hk] at ih'
          simp [popKV, lookupKV, h₀, h₁, ih', hk]
        · have hks : ¬ k' = k := fun hh => hk hh.symm
          simp [popKV, lookupKV, h₀, h₁, ih, hk, hks]

theorem lookupKV_append_left (xs ys : List (String × JVal)) (k : String) (v : JVal)
    (h : lookupKV xs k = some v) : lookupKV (xs ++ ys) k = some v := by
  induction xs with
  | nil => simp [lookupKV] at h
  | cons kv t ih =>
      obtain ⟨k₀, v₀⟩ := kv
      by_cases hk : k₀ = k <;> simp_all [lookupKV]

theorem lookupKV_append_right (xs ys : List (String × JVal)) (k : String)
    (h : lookupKV xs k = none) : lookupKV (xs ++ ys) k = lookupKV ys k := by
  induction xs with
  | nil => simp [lookupKV]
  | cons kv t ih =>
      obtain ⟨k₀, v₀⟩ := kv
      by_cases hk : k₀ = k <;> simp_all [lookupKV]

theorem lookupKV_sdKV (kvs : List (String × JVal)) (k k' : String) (v : JVal) :
    lookupKV (sdKV kvs k v) k' =
      if k = k' then some ((lookupKV kvs k).getD v) else lookupKV kvs k' := by
  unfold sdKV
  cases h : lookupKV kvs k with
  | some w =>
      by_cases hk : k = k' <;> simp [hk]
      · subst hk; simp [h]
  | none =>
      by_cases hk : k = k'
      · subst hk
        simp [h, lookupKV_append_right _ _ _ h, lookupKV]
      · cases h' : lookupKV kvs k' with
        | some w => simp [hk, lookupKV_append_left _ _ _ _ h', h']
        | none =>
            have : lookupKV [(k, v)] k' = none := by simp [lookupKV, hk]
            simp [hk, lookupKV_append_right _ _ _ h', h', this]

theorem setKV_setKV_same (kvs : List (String × JVal)) (k : String) (v v' : JVal) :
    setKV (setKV kvs k v) k v' = setKV kvs k v' := by
  induction kvs with
  | nil => simp [setKV]
  | cons kv t ih =>
      obtain ⟨k₀, v₀⟩ := kv
      by_cases h : k₀ = k <;> simp [setKV, h, ih]

theorem popKV_setKV_same (kvs : List (String × JVal)) (k : String) (v : JVal) :
    popKV (setKV kvs k v) k = popKV kvs k := by
  induction kvs with
  | nil => simp [setKV, popKV]
  | cons kv t ih =>
      obtain ⟨k₀, v₀⟩ := kv
      by_cases h : k₀ = k <;> simp [setKV, popKV, h, ih]

theorem popKV_popKV (kvs : List (String × JVal)) (k : String) :
    popKV (popKV kvs k) k = popKV kvs k := by
  induction kvs with
  | nil => simp [popKV]
  | cons kv t ih =>
      obtain ⟨k₀, v₀⟩ := kv
      by_cases h : k₀ = k <;> simp [popKV, h, ih]

theorem popKV_absent (kvs : List (String × JVal)) (k : String)
    (h : lookupKV kvs k = none) : popKV kvs k = kvs := by
  induction kvs with
  | nil => simp [popKV]
  | cons kv t ih =>
      obtain ⟨k₀, v₀⟩ := kv
      by_cases hk : k₀ = k
      · simp [lookupKV, hk] at h
      · simp [lookupKV, hk] at h
        simp [popKV, hk, ih h]

theorem sdKV_present (kvs : List (String × JVal)) (k : String) (v w : JVal)
    (h : lookupKV kvs k = some w) : sdKV kvs k v = kvs := by
  simp [sdKV, h]

theorem popKV_setKV_ne (kvs : List (String × JVal)) (k k' : String) (v : JVal)
    (h : k ≠ k') : popKV (setKV kvs k v) k' = setKV (popKV kvs k') k v := by
  induction kvs with
  | nil => simp [setKV, popKV, h]
  | cons kv t ih =>
      obtain ⟨k₀, v₀⟩ := kv
      by_cases h₀ : k₀ = k <;> by_cases h₁ : k₀ = k'
      · exact absurd (h₀.symm.trans h₁) h
      · have hks : ¬ k' = k := fun hh => h hh.symm
        simp [setKV, popKV, h₀, h₁, h, hks, ih]
      · have hks : ¬ k' = k := fun hh => h hh.symm
        simp [setKV, popKV, h₀, h₁, h, hks, ih]
      · simp [setKV, popKV, h₀, h₁, ih]

/-! ### Python string helpers, over explicit character lists -/

/-- Whitespace characters recognised by Python's `str.split()` and
`str.strip()` (ASCII subset; the data handled by the scripts contains no
exotic Unicode whitespace). -/
def pyIsSpace (c : Char) : Bool :=
  c = ' ' || c = '\t' || c = '\n' || c = '\r' || c = '\x0b' || c = '\x0c'

/-- ASCII lower-casing of one character.  Python's `str.lower` also folds
non-ASCII letters; the strings compared by the scripts contain only ASCII
letters and CJK characters, which are unaffected. -/
def asciiLower (c : Char) : Char :=
  if 'A' ≤ c ∧ c ≤ 'Z' then Char.ofNat (c.toNat + 32) else c

/-- Python `s.lower()`. -/
def pyLower (s : String) : String := ⟨s.data.map asciiLower⟩

/-- Removal of trailing whitespace, the second half of `str.strip()`. -/
def dropTrailingSpaces (cs : List Char) : List Char :=
  (cs.reverse.dropWhile pyIsSpace).reverse

/-- Characters removed at both ends by `str.strip()`. -/
def pyStripChars (cs : List Char) : List Char :=
  dropTrailingSpaces (cs.dropWhile pyIsSpace)

/-- Python `s.strip()`. -/
def pyStrip (s : String) : String := ⟨pyStripChars s.data⟩

theorem dropWhile_space_idem (l : List Char) :
    List.dropWhile pyIsSpace (List.dropWhile pyIsSpace l) = List.dropWhile pyIsSpace l := by
  induction l with
  | nil => simp
  | cons c t ih =>
      by_cases hc : pyIsSpace c <;> simp [List.dropWhile_cons, hc, ih]

theorem dropTrailingSpaces_idem (l : List Char) :
    dropTrailingSpaces (dropTrailingSpaces l) = dropTrailingSpaces l := by
  simp [dropTrailingSpaces, dropWhile_space_idem]

theorem dropWhile_space_append (l₁ l₂ : List Char) :
    List.dropWhile pyIsSpace (l₁ ++ l₂) =
      if List.dropWhile pyIsSpace l₁ = [] then List.dropWhile pyIsSpace l₂
      else List.dropWhile pyIsSpace l₁ ++ l₂ := by
  induction l₁ with
  | nil => simp
  | cons c t ih =>
      by_cases hc : pyIsSpace c
      · simp [List.dropWhile_cons, hc, ih]
      · simp [List.dropWhile_cons, hc]

theorem dropWhile_dropTrailing_comm (l : List Char) :
    List.dropWhile pyIsSpace (dropTrailingSpaces l) =
      dropTrailingSpaces (List.dropWhile pyIsSpace l) := by
  induction l with
  | nil => simp [dropTrailingSpaces]
  | cons c t ih =>
      by_cases ht : List.dropWhile pyIsSpace t.reverse = []
      · have htail : dropTrailingSpaces (c :: t) =
            (List.dropWhile pyIsSpace [c]).reverse := by
          simp only [dropTrailingSpaces, List.reverse_cons, dropWhile_space_append,
            if_pos ht]
        by_cases hc : pyIsSpace c
        · have htn : List.dropWhile pyIsSpace t = [] := by
            rw [List.dropWhile_eq_nil_iff] at ht ⊢
            intro x hx; exact ht x (by simpa using hx)
          rw [htail]
          simp [List.dropWhile_cons, hc, htn, dropTrailingSpaces]
        · rw [htail]
          simp [List.dropWhile_cons, hc, dropTrailingSpaces, List.reverse_cons,
            dropWhile_space_append, ht]
      · have htail : dropTrailingSpaces (c :: t) = c :: dropTrailingSpaces t := by
          simp only [dropTrailingSpaces, List.reverse_cons, dropWhile_space_append,
            if_neg ht]
          simp
        by_cases hc : pyIsSpace c
        · rw [htail]
          simp [List.dropWhile_cons, hc, ih]
        · rw [htail]
          simp [List.dropWhile_cons, hc, htail]

theorem pyStripChars_idem (cs : List Char) :
    pyStripChars (pyStripChars cs) = pyStripChars cs := by
  unfold pyStripChars
  rw [dropWhile_dropTrailing_comm, dropWhile_space_idem, dropTrailingSpaces_idem]

theorem pyStrip_idem (s : String) : pyStrip (pyStrip s) = pyStrip s := by
  simp [pyStrip, pyStripChars_idem]

/-- Does `pat` occur at the start of `s`? -/
def listStartsWith : List Char → List Char → Bool
  | [], _ => true
  | _ :: _, [] => false
  | p :: ps, c :: cs => p == c && listStartsWith ps cs

/-- Python `pat in s` substring test. -/
def listHasSub (pat : List Char) : List Char → Bool
  | [] => pat.isEmpty
  | c :: cs => listStartsWith pat (c :: cs) || listHasSub pat cs

/-- Python `pat in s` on strings. -/
def strHasSub (pat s : String) : Bool := listHasSub pat.data s.data

/-- Python `s.endswith(suf)`. -/
def strEndsWith (s suf : String) : Bool :=
  listStartsWith suf.data.reverse s.data.reverse

/-- Line-break characters recognised by Python's `str.splitlines()`. -/
def pyIsLineBreak (c : Char) : Bool :=
  c = '\n' || c = '\r' || c = '\x0b' || c = '\x0c' || c = '\x1c' ||
  c = '\x1d' || c = '\x1e' || c = '\x85' || c = ' ' || c = ' '

/-- Python `s.splitlines()[0]`.  (On the empty string Python would raise
IndexError; the error messages passed to it in the scripts are never
empty, and this model returns "".) -/
def pyFirstLine (s : String) : String :=
  ⟨s.data.takeWhile (fun c => !pyIsLineBreak c)⟩

/-- Python truthiness of a JSON value. -/
def pyTruthy : JVal → Bool
  | .null => false
  | .bool b => b
  | .num n => n != 0
  | .str s => s ≠ ""
  | .arr xs => xs ≠ []
  | .obj kvs => kvs ≠ []

mutual

/-- Python `repr` of a JSON value (string escaping inside nested reprs is
not modelled; the scripts only ever apply `str` to scalar junk values). -/
def pyRepr : JVal → String
  | .null => "None"
  | .bool true => "True"
  | .bool false => "False"
  | .num n => toString n
  | .str s => "\x27" ++ s ++ "\x27"
  | .arr xs => "[" ++ pyReprList xs ++ "]"
  | .obj kvs => "\x7b" ++ pyReprObj kvs ++ "\x7d"

/-- Comma-joined reprs of list elements. -/
def pyReprList : List JVal → String
  | [] => ""
  | [x] => pyRepr x
  | x :: y :: t => pyRepr x ++ ", " ++ pyReprList (y :: t)

/-- Comma-joined reprs of dict entries. -/
def pyReprObj : List (String × JVal) → String
  | [] => ""
  | [(k, v)] => "\x27" ++ k ++ "\x27: " ++ pyRepr v
  | (k, v) :: y :: t => "\x27" ++ k ++ "\x27: " ++ pyRepr v ++ ", " ++ pyReprObj (y :: t)

end

/-- Python `str(v)` on a JSON value. -/
def pyStr : JVal → String
  | .str s => s
  | v => pyRepr v

/-! ### Role Classifier (tools/collect_gitcode_members.py lines 160-173;
the same two functions are duplicated verbatim in
tools/refresh_member_roles.py and tools/migrate_remove_committer_auto.py) -/

/-- Python `_norm_role_name_cn`: `"".join(s.split())`, i.e. removal of all
whitespace; non-strings normalise to `""`. -/
def norm_role_name_cn : JVal → String
  | .str s => ⟨s.data.filter (fun c => !pyIsSpace c)⟩
  | _ => ""

/-- Python `is_cangjie_committer_role(role_name_cn, role_name)`. -/
def is_cangjie_committer_role (role_name_cn role_name : JVal) : Bool :=
  let cn := norm_role_name_cn role_name_cn
  if cn = "仓颉Committer" ∨ cn = "仓颉committer" then true
  else
    let rn := match role_name with
      | .str s => pyStrip (pyLower s)
      | _ => ""
    if rn = "" then false
    else strHasSub "committer" rn || strEndsWith rn ":committer" || rn = "committer"

/-- Role Classifier as the specification words it: the whitespace-stripped
localized role name is compared case-insensitively against the project
committer marker (instead of against the two fixed spellings the code
lists).  Stated only for comparison against `is_cangjie_committer_role`. -/
def specRoleClassifier (role_name_cn role_name : JVal) : Bool :=
  let cn := norm_role_name_cn role_name_cn
  if pyLower cn = pyLower "仓颉Committer" then true
  else
    let rn := match role_name with
      | .str s => pyStrip (pyLower s)
      | _ => ""
    if rn = "" then false
    else strHasSub "committer" rn || strEndsWith rn ":committer" || rn = "committer"

/-! ### Shared derived-committer reduction over repos entries -/

/-- Python `any(is_cangjie_committer_role(r.get("roleNameCn"), r.get("roleName"))
for r in repos if isinstance(r, dict))`. -/
def repos_any_committer (repos : List JVal) : Bool :=
  repos.any fun r =>
    match r with
    | .obj kvs =>
        is_cangjie_committer_role ((lookupKV kvs "roleNameCn").getD .null)
          ((lookupKV kvs "roleName").getD .null)
    | _ => false

/-- Repos list of a person record: `p.get("repos")`, coerced to `[]` when
absent or not a list (as every use site does). -/
def person_repos (p : JVal) : List JVal :=
  match jGet p "repos" with
  | some (.arr xs) => xs
  | _ => []

/-- Derived committer flag of a person record, recomputed from its repos. -/
def person_committer (p : JVal) : Bool := repos_any_committer (person_repos p)

/-- People array of a roster document: `doc.get("people")`, `[]` when absent
or not a list. -/
def doc_people (d : JVal) : List JVal :=
  match jGet d "people" with
  | some (.arr xs) => xs
  | _ => []

/-- Invariant of the specification: the stored isCommitter flag equals the
OR-reduction of the Role Classifier over the person's repos entries. -/
def committer_invariant (p : JVal) : Prop :=
  jGet p "isCommitter" = some (.bool (person_committer p))

/-! ### Claim C3: the Role Classifier contract -/

/-- C3 counterexample: the code compares the normalized localized role name
against exactly the two spellings "仓颉Committer" and "仓颉committer", not
case-insensitively: on input ("仓颉CoMmItTeR", "") the implementation
returns false while the spec's case-insensitive comparison returns true. -/
theorem claim_C3_counterexample :
    is_cangjie_committer_role (.str "仓颉CoMmItTeR") (.str "") = false ∧
    specRoleClassifier (.str "仓颉CoMmItTeR") (.str "") = true := by
  constructor <;> rfl

/-- C3 (amended): `is_cangjie_committer_role` returns true iff the
localizedRoleName with all whitespace removed equals one of the two fixed
spellings "仓颉Committer" or "仓颉committer" (not an arbitrary
case-variant), or else roleName is a string whose lowercased-and-trimmed
form is non-empty and contains the substring "committer" (or ends with
":committer" or equals "committer"); in every other case, including all
non-string inputs, it returns false (the classifier is total). -/
theorem claim_C3 (role_name_cn role_name : JVal) :
    is_cangjie_committer_role role_name_cn role_name = true ↔
      (norm_role_name_cn role_name_cn = "仓颉Committer" ∨
       norm_role_name_cn role_name_cn = "仓颉committer") ∨
      (∃ s, role_name = JVal.str s ∧ pyStrip (pyLower s) ≠ "" ∧
        (strHasSub "committer" (pyStrip (pyLower s)) = true ∨
         strEndsWith (pyStrip (pyLower s)) ":committer" = true ∨
         pyStrip (pyLower s) = "committer")) := by
  unfold is_cangjie_committer_role
  by_cases hcn : norm_role_name_cn role_name_cn = "仓颉Committer" ∨
      norm_role_name_cn role_name_cn = "仓颉committer"
  · simp [hcn]
  · simp only [if_neg hcn]
    cases role_name with
    | str s =>
        by_cases hrn : pyStrip (pyLower s) = ""
        · simp [hrn, hcn]
        · simp only [if_neg hrn]
          simp [hcn, hrn, Bool.or_eq_true, or_assoc]
    | null => simp [hcn]
    | bool b => simp [hcn]
    | num n => simp [hcn]
    | arr xs => simp [hcn]
    | obj kvs => simp [hcn]


@[simp] theorem jGet_obj (kvs : List (String × JVal)) (k : String) :
    jGet (JVal.obj kvs) k = lookupKV kvs k := rfl

@[simp] theorem lookupKV_objKvs (d : JVal) (k : String) :
    lookupKV (JVal.objKvs d) k = jGet d k := by
  cases d <;> rfl

/-! ### tools/collect_gitcode_members.py: the Person Reconciler
(`merge_person`, lines 262-300).  The function is rendered as a pipeline of
named steps, one per statement group of the source. -/

namespace CollectGitcodeMembers

/-- Key of a repos entry: Python `(r.get("owner"), r.get("repo"))` (missing
keys give None, matching `.get`'s default). -/
def repo_key (r : JVal) : JVal × JVal :=
  ((jGet r "owner").getD .null, (jGet r "repo").getD .null)

/-- Keys of the dict-valued entries of a repos list: Python
`{(r.get("owner"), r.get("repo")) for r in repos if isinstance(r, dict)}`
(modelled as a list; only membership is ever used). -/
def repo_keys_of (repos : List JVal) : List (JVal × JVal) :=
  repos.filterMap fun r =>
    match r with
    | .obj _ => some (repo_key r)
    | _ => none

/-- Loop of lines 286-292: fold the incoming repos entries into the
accumulated list, appending an entry only when its (owner, repo) key has
not been seen. -/
def merge_repos_loop (acc : List JVal) (incoming : List JVal)
    (seen : List (JVal × JVal)) : List JVal :=
  match incoming with
  | [] => acc
  | r :: rest =>
      match r with
      | .obj _ =>
          if repo_key r ∈ seen then merge_repos_loop acc rest seen
          else merge_repos_loop (acc ++ [r]) rest (repo_key r :: seen)
      | _ => merge_repos_loop acc rest seen

/-- Repos list of the incoming observation: `incoming.get("repos", [])`
(the callers always build it as a list). -/
def incoming_repos (incoming : JVal) : List JVal :=
  match jGet incoming "repos" with
  | some (.arr xs) => xs
  | _ => []

/-- Line 267: `merged["gitcodeId"] = incoming.get("gitcodeId",
merged.get("gitcodeId", ""))`. -/
def merge_gitcodeId (m : List (String × JVal)) (i : JVal) : List (String × JVal) :=
  setKV m "gitcodeId" ((jGet i "gitcodeId").getD ((lookupKV m "gitcodeId").getD (.str "")))

/-- Lines 270-273 pattern, used for realName and email: keep the stored
value if it is a string that is non-empty after strip, otherwise overwrite
with the incoming guess. -/
def merge_sticky (m : List (String × JVal)) (k : String) (inc : JVal) :
    List (String × JVal) :=
  match lookupKV m k with
  | some (.str s) => if pyStrip s ≠ "" then m else setKV m k inc
  | _ => setKV m k inc

/-- Lines 264-279 of `merge_person`: copy of the existing dict, refresh of
gitcodeId, sticky realName/email, removal of the legacy isCommitterManual
field, and defaults for the curated fields. -/
def merge_curated (e i : JVal) : List (String × JVal) :=
  sdKV (sdKV (sdKV (sdKV (popKV
    (merge_sticky
      (merge_sticky (merge_gitcodeId e.objKvs i) "realName" ((jGet i "realName").getD (.str "")))
      "email" ((jGet i "email").getD (.str "")))
    "isCommitterManual")
    "isConfirmed" (.bool false)) "isLeader" (.bool false)) "notes" (.str "")) "groups" (.arr [])

/-- Python `merge_person(existing, incoming)` (lines 262-300).  Both
arguments are dicts at every call site (`dict(existing)` would raise
otherwise); a non-dict argument is treated as the empty dict. -/
def merge_person (e i : JVal) : JVal :=
  let m₈ := merge_curated e i
  let repos₀ := match lookupKV m₈ "repos" with
    | some (.arr xs) => xs
    | _ => []
  let mergedRepos := merge_repos_loop repos₀ (incoming_repos i) (repo_keys_of repos₀)
  JVal.obj (setKV (setKV m₈ "repos" (.arr mergedRepos)) "isCommitter"
    (.bool (repos_any_committer mergedRepos)))

theorem lookupKV_merge_gitcodeId_ne (m : List (String × JVal)) (i : JVal) (k : String)
    (h : k ≠ "gitcodeId") : lookupKV (merge_gitcodeId m i) k = lookupKV m k := by
  unfold merge_gitcodeId
  rw [lookupKV_setKV, if_neg (show ¬ "gitcodeId" = k from fun hh => h hh.symm)]

theorem lookupKV_merge_sticky_ne (m : List (String × JVal)) (k : String) (inc : JVal)
    (k' : String) (h : k ≠ k') : lookupKV (merge_sticky m k inc) k' = lookupKV m k' := by
  unfold merge_sticky
  split
  · split
    · rfl
    · simp [h]
  · simp [h]

theorem lookupKV_merge_sticky_self (m : List (String × JVal)) (k : String) (inc : JVal) :
    lookupKV (merge_sticky m k inc) k =
      match lookupKV m k with
      | some (.str s) => if pyStrip s ≠ "" then some (.str s) else some inc
      | _ => some inc := by
  unfold merge_sticky
  split
  · rename_i s heq
    split
    · simp_all
    · simp_all
  · simp

theorem lookupKV_merge_curated_ne (e i : JVal) (k : String)
    (h1 : k ≠ "gitcodeId") (h2 : k ≠ "realName") (h3 : k ≠ "email")
    (h4 : k ≠ "isCommitterManual") (h5 : k ≠ "isConfirmed") (h6 : k ≠ "isLeader")
    (h7 : k ≠ "notes") (h8 : k ≠ "groups") :
    lookupKV (merge_curated e i) k = jGet e k := by
  unfold merge_curated
  rw [lookupKV_sdKV, if_neg (show ¬ "groups" = k from fun hh => h8 hh.symm),
    lookupKV_sdKV, if_neg (show ¬ "notes" = k from fun hh => h7 hh.symm),
    lookupKV_sdKV, if_neg (show ¬ "isLeader" = k from fun hh => h6 hh.symm),
    lookupKV_sdKV, if_neg (show ¬ "isConfirmed" = k from fun hh => h5 hh.symm),
    lookupKV_popKV, if_neg (show ¬ "isCommitterManual" = k from fun hh => h4 hh.symm),
    lookupKV_merge_sticky_ne _ _ _ _ (fun hh : "email" = k => h3 hh.symm),
    lookupKV_merge_sticky_ne _ _ _ _ (fun hh : "realName" = k => h2 hh.symm),
    lookupKV_merge_gitcodeId_ne _ _ _ h1, lookupKV_objKvs]

end CollectGitcodeMembers

namespace CollectGitcodeMembers

theorem lookupKV_merge_curated_realName (e i : JVal) :
    lookupKV (merge_curated e i) "realName" =
      match jGet e "realName" with
      | some (.str s) =>
          if pyStrip s ≠ "" then some (.str s)
          else some ((jGet i "realName").getD (.str ""))
      | _ => some ((jGet i "realName").getD (.str "")) := by
  unfold merge_curated
  rw [lookupKV_sdKV, if_neg (by decide : ¬ ("groups" : String) = "realName"),
    lookupKV_sdKV, if_neg (by decide : ¬ ("notes" : String) = "realName"),
    lookupKV_sdKV, if_neg (by decide : ¬ ("isLeader" : String) = "realName"),
    lookupKV_sdKV, if_neg (by decide : ¬ ("isConfirmed" : String) = "realName"),
    lookupKV_popKV, if_neg (by decide : ¬ ("isCommitterManual" : String) = "realName"),
    lookupKV_merge_sticky_ne _ _ _ _ (by decide : ("email" : String) ≠ "realName"),
    lookupKV_merge_sticky_self,
    lookupKV_merge_gitcodeId_ne _ _ _ (by decide : ("realName" : String) ≠ "gitcodeId"),
    lookupKV_objKvs]

theorem lookupKV_merge_curated_email (e i : JVal) :
    lookupKV (merge_curated e i) "email" =
      match jGet e "email" with
      | some (.str s) =>
          if pyStrip s ≠ "" then some (.str s)
          else some ((jGet i "email").getD (.str ""))
      | _ => some ((jGet i "email").getD (.str "")) := by
  unfold merge_curated
  rw [lookupKV_sdKV, if_neg (by decide : ¬ ("groups" : String) = "email"),
    lookupKV_sdKV, if_neg (by decide : ¬ ("notes" : String) = "email"),
    lookupKV_sdKV, if_neg (by decide : ¬ ("isLeader" : String) = "email"),
    lookupKV_sdKV, if_neg (by decide : ¬ ("isConfirmed" : String) = "email"),
    lookupKV_popKV, if_neg (by decide : ¬ ("isCommitterManual" : String) = "email"),
    lookupKV_merge_sticky_self,
    lookupKV_merge_sticky_ne _ _ _ _ (by decide : ("realName" : String) ≠ "email"),
    lookupKV_merge_gitcodeId_ne _ _ _ (by decide : ("email" : String) ≠ "gitcodeId"),
    lookupKV_objKvs]

theorem lookupKV_merge_curated_before_sd (e i : JVal) (k : String)
    (h1 : k ≠ "gitcodeId") (h2 : k ≠ "realName") (h3 : k ≠ "email")
    (h4 : k ≠ "isCommitterManual") :
    lookupKV (popKV
      (merge_sticky
        (merge_sticky (merge_gitcodeId e.objKvs i) "realName" ((jGet i "realName").getD (.str "")))
        "email" ((jGet i "email").getD (.str "")))
      "isCommitterManual") k = jGet e k := by
  rw [lookupKV_popKV, if_neg (show ¬ "isCommitterManual" = k from fun hh => h4 hh.symm),
    lookupKV_merge_sticky_ne _ _ _ _ (fun hh : "email" = k => h3 hh.symm),
    lookupKV_merge_sticky_ne _ _ _ _ (fun hh : "realName" = k => h2 hh.symm),
    lookupKV_merge_gitcodeId_ne _ _ _ h1, lookupKV_objKvs]

theorem lookupKV_merge_curated_isConfirmed (e i : JVal) :
    lookupKV (merge_curated e i) "isConfirmed" =
      some ((jGet e "isConfirmed").getD (.bool false)) := by
  unfold merge_curated
  rw [lookupKV_sdKV, if_neg (by decide : ¬ ("groups" : String) = "isConfirmed"),
    lookupKV_sdKV, if_neg (by decide : ¬ ("notes" : String) = "isConfirmed"),
    lookupKV_sdKV, if_neg (by decide : ¬ ("isLeader" : String) = "isConfirmed"),
    lookupKV_sdKV, if_pos rfl,
    lookupKV_merge_curated_before_sd _ _ _ (by decide) (by decide) (by decide) (by decide)]

theorem lookupKV_merge_curated_isLeader (e i : JVal) :
    lookupKV (merge_curated e i) "isLeader" =
      some ((jGet e "isLeader").getD (.bool false)) := by
  unfold merge_curated
  rw [lookupKV_sdKV, if_neg (by decide : ¬ ("groups" : String) = "isLeader"),
    lookupKV_sdKV, if_neg (by decide : ¬ ("notes" : String) = "isLeader"),
    lookupKV_sdKV, if_pos rfl, lookupKV_sdKV,
    if_neg (by decide : ¬ ("isConfirmed" : String) = "isLeader"),
    lookupKV_merge_curated_before_sd _ _ _ (by decide) (by decide) (by decide) (by decide)]

theorem lookupKV_merge_curated_notes (e i : JVal) :
    lookupKV (merge_curated e i) "notes" =
      some ((jGet e "notes").getD (.str "")) := by
  unfold merge_curated
  rw [lookupKV_sdKV, if_neg (by decide : ¬ ("groups" : String) = "notes"),
    lookupKV_sdKV, if_pos rfl, lookupKV_sdKV,
    if_neg (by decide : ¬ ("isLeader" : String) = "notes"), lookupKV_sdKV,
    if_neg (by decide : ¬ ("isConfirmed" : String) = "notes"),
    lookupKV_merge_curated_before_sd _ _ _ (by decide) (by decide) (by decide) (by decide)]

theorem lookupKV_merge_curated_groups (e i : JVal) :
    lookupKV (merge_curated e i) "groups" =
      some ((jGet e "groups").getD (.arr [])) := by
  unfold merge_curated
  rw [lookupKV_sdKV, if_pos rfl, lookupKV_sdKV,
    if_neg (by decide : ¬ ("notes" : String) = "groups"), lookupKV_sdKV,
    if_neg (by decide : ¬ ("isLeader" : String) = "groups"), lookupKV_sdKV,
    if_neg (by decide : ¬ ("isConfirmed" : String) = "groups"),
    lookupKV_merge_curated_before_sd _ _ _ (by decide) (by decide) (by decide) (by decide)]

/-- The repos list obtained by merging the incoming observation's entries
into the existing ones. -/
def merged_repos (e i : JVal) : List JVal :=
  merge_repos_loop (person_repos e) (incoming_repos i) (repo_keys_of (person_repos e))

theorem merge_person_eq (e i : JVal) :
    merge_person e i =
      JVal.obj (setKV (setKV (merge_curated e i) "repos" (.arr (merged_repos e i)))
        "isCommitter" (.bool (repos_any_committer (merged_repos e i)))) := by
  have hrep : lookupKV (merge_curated e i) "repos" = jGet e "repos" :=
    lookupKV_merge_curated_ne e i "repos" (by decide) (by decide) (by decide)
      (by decide) (by decide) (by decide) (by decide) (by decide)
  simp only [merge_person, hrep, merged_repos, person_repos]

theorem merge_person_get_repos (e i : JVal) :
    jGet (merge_person e i) "repos" = some (.arr (merged_repos e i)) := by
  rw [merge_person_eq]
  simp

theorem person_repos_merge_person (e i : JVal) :
    person_repos (merge_person e i) = merged_repos e i := by
  unfold person_repos
  rw [merge_person_get_repos]

theorem merge_person_invariant (e i : JVal) :
    committer_invariant (merge_person e i) := by
  unfold committer_invariant person_committer
  rw [person_repos_merge_person, merge_person_eq]
  simp

theorem merge_person_get_other (e i : JVal) (k : String)
    (h1 : k ≠ "gitcodeId") (h2 : k ≠ "realName") (h3 : k ≠ "email")
    (h4 : k ≠ "isCommitterManual") (h5 : k ≠ "isConfirmed") (h6 : k ≠ "isLeader")
    (h7 : k ≠ "notes") (h8 : k ≠ "groups") (h9 : k ≠ "repos") (h10 : k ≠ "isCommitter") :
    jGet (merge_person e i) k = jGet e k := by
  rw [merge_person_eq]
  simp only [jGet_obj]
  rw [lookupKV_setKV, if_neg (show ¬ "isCommitter" = k from fun hh => h10 hh.symm),
    lookupKV_setKV, if_neg (show ¬ "repos" = k from fun hh => h9 hh.symm),
    lookupKV_merge_curated_ne e i k h1 h2 h3 h4 h5 h6 h7 h8]

end CollectGitcodeMembers

open CollectGitcodeMembers in
/-- C5: reconciling a prior Person with an incoming observation keeps the
prior realName whenever it is a string that is non-empty after trimming
and otherwise takes the incoming guess (defaulting to ""); email follows
the identical rule; and the curated fields notes, isLeader, groups,
isConfirmed are kept verbatim when present and only defaulted when
absent. -/
theorem claim_C5 (existing incoming : JVal) :
    (jGet (merge_person existing incoming) "realName" =
      match jGet existing "realName" with
      | some (.str s) =>
          if pyStrip s ≠ "" then some (.str s)
          else some ((jGet incoming "realName").getD (.str ""))
      | _ => some ((jGet incoming "realName").getD (.str ""))) ∧
    (jGet (merge_person existing incoming) "email" =
      match jGet existing "email" with
      | some (.str s) =>
          if pyStrip s ≠ "" then some (.str s)
          else some ((jGet incoming "email").getD (.str ""))
      | _ => some ((jGet incoming "email").getD (.str ""))) ∧
    jGet (merge_person existing incoming) "notes" =
      some ((jGet existing "notes").getD (.str "")) ∧
    jGet (merge_person existing incoming) "isLeader" =
      some ((jGet existing "isLeader").getD (.bool false)) ∧
    jGet (merge_person existing incoming) "groups" =
      some ((jGet existing "groups").getD (.arr [])) ∧
    jGet (merge_person existing incoming) "isConfirmed" =
      some ((jGet existing "isConfirmed").getD (.bool false)) := by
  refine ⟨?_, ?_, ?_, ?_, ?_, ?_⟩ <;>
    rw [merge_person_eq] <;> simp only [jGet_obj] <;>
    rw [lookupKV_setKV, lookupKV_setKV]
  · rw [if_neg (by decide : ¬ ("isCommitter" : String) = "realName"),
      if_neg (by decide : ¬ ("repos" : String) = "realName"),
      lookupKV_merge_curated_realName]
  · rw [if_neg (by decide : ¬ ("isCommitter" : String) = "email"),
      if_neg (by decide : ¬ ("repos" : String) = "email"),
      lookupKV_merge_curated_email]
  · rw [if_neg (by decide : ¬ ("isCommitter" : String) = "notes"),
      if_neg (by decide : ¬ ("repos" : String) = "notes"),
      lookupKV_merge_curated_notes]
  · rw [if_neg (by decide : ¬ ("isCommitter" : String) = "isLeader"),
      if_neg (by decide : ¬ ("repos" : String) = "isLeader"),
      lookupKV_merge_curated_isLeader]
  · rw [if_neg (by decide : ¬ ("isCommitter" : String) = "groups"),
      if_neg (by decide : ¬ ("repos" : String) = "groups"),
      lookupKV_merge_curated_groups]
  · rw [if_neg (by decide : ¬ ("isCommitter" : String) = "isConfirmed"),
      if_neg (by decide : ¬ ("repos" : String) = "isConfirmed"),
      lookupKV_merge_curated_isConfirmed]

namespace CollectGitcodeMembers

theorem repo_keys_of_append (xs ys : List JVal) :
    repo_keys_of (xs ++ ys) = repo_keys_of xs ++ repo_keys_of ys := by
  simp [repo_keys_of, List.filterMap_append]

end CollectGitcodeMembers

open CollectGitcodeMembers in
/-- C6: merging an observation that carries exactly one RepoRole entry
appends that entry to repos when no existing entry has the same
(owner, repo) key, leaves the repos list entirely unchanged when the key is
already present (the merge path never updates an existing entry), and
preserves the absence of duplicate (owner, repo) keys. -/
theorem claim_C6 (existing incoming : JVal) (rkvs : List (String × JVal))
    (hinc : incoming_repos incoming = [JVal.obj rkvs]) :
    (repo_key (JVal.obj rkvs) ∉ repo_keys_of (person_repos existing) →
      jGet (merge_person existing incoming) "repos" =
        some (.arr (person_repos existing ++ [JVal.obj rkvs]))) ∧
    (repo_key (JVal.obj rkvs) ∈ repo_keys_of (person_repos existing) →
      jGet (merge_person existing incoming) "repos" =
        some (.arr (person_repos existing))) ∧
    ((repo_keys_of (person_repos existing)).Nodup →
      (repo_keys_of (person_repos (merge_person existing incoming))).Nodup) := by
  have hmr : merged_repos existing incoming =
      if repo_key (JVal.obj rkvs) ∈ repo_keys_of (person_repos existing) then
        person_repos existing
      else person_repos existing ++ [JVal.obj rkvs] := by
    unfold merged_repos
    rw [hinc]
    by_cases hmem : repo_key (JVal.obj rkvs) ∈ repo_keys_of (person_repos existing) <;>
      simp [merge_repos_loop, hmem]
  refine ⟨?_, ?_, ?_⟩
  · intro hmem
    rw [merge_person_get_repos, hmr, if_neg hmem]
  · intro hmem
    rw [merge_person_get_repos, hmr, if_pos hmem]
  · intro hnd
    rw [person_repos_merge_person, hmr]
    by_cases hmem : repo_key (JVal.obj rkvs) ∈ repo_keys_of (person_repos existing)
    · simpa [hmem] using hnd
    · rw [if_neg hmem, repo_keys_of_append]
      have hsing : repo_keys_of [JVal.obj rkvs] = [repo_key (JVal.obj rkvs)] := by
        simp [repo_keys_of]
      rw [hsing, List.nodup_append]
      exact ⟨hnd, List.nodup_singleton _, by
        intro a ha hb
        rw [List.mem_singleton] at hb
        exact hmem (hb ▸ ha)⟩

open CollectGitcodeMembers in
/-- C6 witness: a concrete merge where the incoming entry's key is new (it
is appended) and the no-duplicate-keys property holds. -/
theorem claim_C6_witness :
    jGet (merge_person
        (JVal.obj [("username", .str "u"),
          ("repos", .arr [JVal.obj [("owner", .str "o"), ("repo", .str "a")]])])
        (JVal.obj [("username", .str "u"),
          ("repos", .arr [JVal.obj [("owner", .str "o"), ("repo", .str "b")]])]))
      "repos" =
      some (.arr [JVal.obj [("owner", .str "o"), ("repo", .str "a")],
        JVal.obj [("owner", .str "o"), ("repo", .str "b")]]) ∧
    (repo_keys_of (person_repos (merge_person
        (JVal.obj [("username", .str "u"),
          ("repos", .arr [JVal.obj [("owner", .str "o"), ("repo", .str "a")]])])
        (JVal.obj [("username", .str "u"),
          ("repos", .arr [JVal.obj [("owner", .str "o"), ("repo", .str "b")]])])))).Nodup := by
  have h := claim_C6
    (JVal.obj [("username", .str "u"),
      ("repos", .arr [JVal.obj [("owner", .str "o"), ("repo", .str "a")]])])
    (JVal.obj [("username", .str "u"),
      ("repos", .arr [JVal.obj [("owner", .str "o"), ("repo", .str "b")]])])
    [("owner", .str "o"), ("repo", .str "b")] (by decide)
  refine ⟨?_, h.2.2 (by decide)⟩
  have h1 := h.1 (by decide)
  rw [h1]
  rfl

/-! ### tools/migrate_remove_committer_auto.py -/

namespace MigrateRemoveCommitterAuto

/-- Per-person body of the migration loop (lines 51-69): drop the legacy
isCommitterAuto and isCommitterManual fields and recompute isCommitter
from the repo role fields.  Non-dict entries are left untouched. -/
def migrate_person (p : JVal) : JVal :=
  match p with
  | .obj kvs =>
      let k₁ := popKV kvs "isCommitterAuto"
      let k₂ := popKV k₁ "isCommitterManual"
      JVal.obj (setKV k₂ "isCommitter"
        (.bool (repos_any_committer (person_repos (JVal.obj k₂)))))
  | _ => p

/-- Python `process(obj)` (lines 45-72).  Stats are not modelled; `now` is
the value `utc_now_iso()` would produce.  When `people` is not a list the
function returns the document unchanged, before touching updatedAt; a
non-dict document never reaches `process` (main exits first). -/
def process (obj : JVal) (now : String) : JVal :=
  match obj with
  | .obj kvs =>
      match lookupKV kvs "people" with
      | some (.arr people) =>
          JVal.obj (setKV (setKV kvs "people" (.arr (people.map migrate_person)))
            "updatedAt" (.str now))
      | _ => JVal.obj kvs
  | _ => obj

end MigrateRemoveCommitterAuto

/-! ### tools/migrate_team_to_groups_only.py -/

namespace MigrateTeamToGroupsOnly

/-- Per-person body of the migration loop (lines 39-49): drop the legacy
per-person team field and truncate a multi-element groups list to its
first element. -/
def migrate_person (p : JVal) : JVal :=
  match p with
  | .obj kvs =>
      let k₁ := popKV kvs "team"
      match lookupKV k₁ "groups" with
      | some (.arr (g :: _ :: _)) => JVal.obj (setKV k₁ "groups" (.arr [g]))
      | _ => JVal.obj k₁
  | _ => p

/-- Python `process(obj)` (lines 25-52): drop the top-level team field,
migrate every person, and refresh updatedAt unconditionally.  Stats are
not modelled. -/
def process (obj : JVal) (now : String) : JVal :=
  match obj with
  | .obj kvs =>
      let k₁ := popKV kvs "team"
      let k₂ := match lookupKV k₁ "people" with
        | some (.arr people) => setKV k₁ "people" (.arr (people.map migrate_person))
        | _ => k₁
      JVal.obj (setKV k₂ "updatedAt" (.str now))
  | _ => obj

end MigrateTeamToGroupsOnly

/-! ### tools/refresh_realname_from_email.py -/

namespace RefreshRealnameFromEmail

/-- Optional-dot tail of the corporate-domain regex: `(\.[^@]+)?$`. -/
def domainTailOk : List Char → Bool
  | [] => true
  | '.' :: rest => !rest.isEmpty && rest.all (fun c => c ≠ '@')
  | _ => false

/-- Match of `@(huawei|h-partners)(\.[^@]+)?$` at the head of `cs` (already
lower-cased; the pattern is compiled with IGNORECASE). -/
def emailDomainMatchAt (cs : List Char) : Bool :=
  (listStartsWith "@huawei".data cs && domainTailOk (cs.drop 7)) ||
  (listStartsWith "@h-partners".data cs && domainTailOk (cs.drop 11))

/-- Python `EMAIL_DOMAIN_RE.search`: since the pattern is anchored at the
end, the search succeeds iff the anchored pattern matches at some
suffix. -/
def emailDomainSearch : List Char → Bool
  | [] => false
  | c :: cs => emailDomainMatchAt (c :: cs) || emailDomainSearch cs

/-- Python `derive_pinyin_from_email(email)` (lines 33-42): strip, require
an `@` and the corporate domain, take the local part before the first `@`,
remove digits, keep only ASCII letters, lowercase.  Removing the Unicode
digits matched by `\d+` is subsumed by the `[^a-zA-Z]` filter, so the two
substitutions are modelled as one filter. -/
def derive_pinyin_from_email (email : String) : String :=
  let e := pyStrip email
  if e = "" then ""
  else if ¬ ('@' ∈ e.data) then ""
  else if ¬ emailDomainSearch (e.data.map asciiLower) then ""
  else
    let localPart := e.data.takeWhile (fun c => c ≠ '@')
    ⟨(localPart.filter Char.isAlpha).map asciiLower⟩

/-- Python `should_overwrite_realname(real_name, username)` (lines 45-52). -/
def should_overwrite_realname (real_name username : String) : Bool :=
  let rn := pyStrip real_name
  let un := pyStrip username
  if rn = "" then true
  else if rn = un then true
  else false

/-- Line 76 plus the line 80 isinstance filter: the email string handed to
`derive_pinyin_from_email` ("" unless the stored value is a string). -/
def person_email_str (kvs : List (String × JVal)) : String :=
  match lookupKV kvs "email" with
  | some (.str s) => s
  | _ => ""

/-- Line 77 plus the line 85 `str(...)`: `str(p.get("username") or "")`. -/
def person_username_str (kvs : List (String × JVal)) : String :=
  match lookupKV kvs "username" with
  | some v => if pyTruthy v then pyStr v else ""
  | none => ""

/-- Line 78 plus the line 85 isinstance filter:
`p.get("realName") or ""` when a string, else "". -/
def person_realname_str (kvs : List (String × JVal)) : String :=
  match lookupKV kvs "realName" with
  | some (.str s) => s
  | _ => ""

/-- Per-person body of the loop (lines 71-87): derive the pinyin from the
email and overwrite realName when allowed. -/
def refresh_person (p : JVal) : JVal :=
  match p with
  | .obj kvs =>
      let derived := derive_pinyin_from_email (person_email_str kvs)
      if derived = "" then p
      else if should_overwrite_realname (person_realname_str kvs) (person_username_str kvs) then
        JVal.obj (setKV kvs "realName" (.str derived))
      else p
  | _ => p

/-- Python `process(obj, default_team)` (lines 55-93): insert the top-level
team default when absent, refresh realName for every person, and refresh
updatedAt only when the stored updatedAt is a string.  When `people` is
not a list the function returns right after the team insertion, before
the timestamp refresh.  Stats are not modelled. -/
def process (obj : JVal) (default_team : String) (now : String) : JVal :=
  match obj with
  | .obj kvs =>
      let k₁ := if containsKV kvs "team" then kvs else setKV kvs "team" (.str default_team)
      match lookupKV k₁ "people" with
      | some (.arr people) =>
          let k₂ := setKV k₁ "people" (.arr (people.map refresh_person))
          match lookupKV k₂ "updatedAt" with
          | some (.str _) => JVal.obj (setKV k₂ "updatedAt" (.str now))
          | _ => JVal.obj k₂
      | _ => JVal.obj k₁
  | _ => obj

end RefreshRealnameFromEmail

/-! ### tools/refresh_member_roles.py: `recompute_committers` -/

namespace RefreshMemberRoles

/-- Per-person body of `recompute_committers` (lines 69-86): drop the
legacy isCommitterManual field, recompute the committer flag, and write it
back only when it differs (`old is not v`); the second component records
whether the person counted as changed. -/
def recompute_person (p : JVal) : JVal × Bool :=
  match p with
  | .obj kvs =>
      let k₁ := popKV kvs "isCommitterManual"
      let v := repos_any_committer (person_repos (JVal.obj k₁))
      if lookupKV k₁ "isCommitter" = some (.bool v) then (JVal.obj k₁, false)
      else (JVal.obj (setKV k₁ "isCommitter" (.bool v)), true)
  | _ => (p, false)

/-- Python `recompute_committers(team)` (lines 64-87), returning the
updated document together with the changed count it returns. -/
def recompute_committers (team : JVal) : JVal × Int :=
  match team with
  | .obj kvs =>
      match lookupKV kvs "people" with
      | some (.arr people) =>
          let results := people.map recompute_person
          (JVal.obj (setKV kvs "people" (.arr (results.map Prod.fst))),
            Int.ofNat (results.countP (fun r => r.2)))
      | _ => (team, 0)
  | _ => (team, 0)

end RefreshMemberRoles


theorem setKV_of_lookup_eq (kvs : List (String × JVal)) (k : String) (v : JVal)
    (h : lookupKV kvs k = some v) : setKV kvs k v = kvs := by
  induction kvs with
  | nil => simp [lookupKV] at h
  | cons kv t ih =>
      obtain ⟨k₀, v₀⟩ := kv
      by_cases hk : k₀ = k
      · simp [lookupKV, hk] at h
        simp [setKV, hk, h]
      · simp [lookupKV, hk] at h
        simp [setKV, hk, ih h]

theorem popKV_comm (kvs : List (String × JVal)) (k k' : String) :
    popKV (popKV kvs k) k' = popKV (popKV kvs k') k := by
  induction kvs with
  | nil => simp [popKV]
  | cons kv t ih =>
      obtain ⟨k₀, v₀⟩ := kv
      by_cases h₀ : k₀ = k <;> by_cases h₁ : k₀ = k'
      · have hk : k = k' := h₀.symm.trans h₁
        subst hk
        rfl
      · have hk : ¬ k = k' := fun hh => h₁ (h₀.trans hh)
        have hks : ¬ k' = k := fun hh => hk hh.symm
        simp [popKV, h₀, h₁, hk, hks, ih]
      · have hk : ¬ k = k' := fun hh => h₀ (h₁.trans hh.symm)
        have hks : ¬ k' = k := fun hh => hk hh.symm
        simp [popKV, h₀, h₁, hk, hks, ih]
      · simp [popKV, h₀, h₁, ih]

/-- Roster documents compared "modulo timestamp": the top-level updatedAt
entry is erased. -/
def erase_updatedAt : JVal → JVal
  | .obj kvs => .obj (popKV kvs "updatedAt")
  | v => v

theorem person_repos_setKV_ne (kvs : List (String × JVal)) (k : String) (v : JVal)
    (h : k ≠ "repos") :
    person_repos (JVal.obj (setKV kvs k v)) = person_repos (JVal.obj kvs) := by
  unfold person_repos
  simp only [jGet_obj]
  rw [lookupKV_setKV, if_neg (show ¬ k = "repos" from h)]

theorem person_repos_popKV_ne (kvs : List (String × JVal)) (k : String)
    (h : k ≠ "repos") :
    person_repos (JVal.obj (popKV kvs k)) = person_repos (JVal.obj kvs) := by
  unfold person_repos
  simp only [jGet_obj]
  rw [lookupKV_popKV, if_neg (show ¬ k = "repos" from h)]

theorem person_committer_setKV_ne (kvs : List (String × JVal)) (k : String) (v : JVal)
    (h : k ≠ "repos") :
    person_committer (JVal.obj (setKV kvs k v)) = person_committer (JVal.obj kvs) := by
  unfold person_committer
  rw [person_repos_setKV_ne _ _ _ h]

theorem person_committer_popKV_ne (kvs : List (String × JVal)) (k : String)
    (h : k ≠ "repos") :
    person_committer (JVal.obj (popKV kvs k)) = person_committer (JVal.obj kvs) := by
  unfold person_committer
  rw [person_repos_popKV_ne _ _ h]

theorem committer_invariant_setKV_ne (kvs : List (String × JVal)) (k : String) (v : JVal)
    (h1 : k ≠ "repos") (h2 : k ≠ "isCommitter")
    (h : committer_invariant (JVal.obj kvs)) :
    committer_invariant (JVal.obj (setKV kvs k v)) := by
  unfold committer_invariant at h ⊢
  rw [person_committer_setKV_ne _ _ _ h1]
  simp only [jGet_obj] at h ⊢
  rw [lookupKV_setKV, if_neg (show ¬ k = "isCommitter" from h2)]
  exact h

theorem committer_invariant_popKV_ne (kvs : List (String × JVal)) (k : String)
    (h1 : k ≠ "repos") (h2 : k ≠ "isCommitter")
    (h : committer_invariant (JVal.obj kvs)) :
    committer_invariant (JVal.obj (popKV kvs k)) := by
  unfold committer_invariant at h ⊢
  rw [person_committer_popKV_ne _ _ h1]
  simp only [jGet_obj] at h ⊢
  rw [lookupKV_popKV, if_neg (show ¬ k = "isCommitter" from h2)]
  exact h

namespace MigrateRemoveCommitterAuto

theorem migrate_person_idem_mra (p : JVal) :
    migrate_person (migrate_person p) = migrate_person p := by
  cases p with
  | obj kvs =>
      simp only [migrate_person]
      rw [popKV_setKV_ne _ _ _ _ (by decide : ("isCommitter" : String) ≠ "isCommitterAuto"),
        popKV_setKV_ne _ _ _ _ (by decide : ("isCommitter" : String) ≠ "isCommitterManual")]
      have h1 : popKV (popKV (popKV (popKV kvs "isCommitterAuto") "isCommitterManual")
          "isCommitterAuto") "isCommitterManual"
          = popKV (popKV kvs "isCommitterAuto") "isCommitterManual" := by
        rw [popKV_comm (popKV kvs "isCommitterAuto") "isCommitterManual" "isCommitterAuto",
          popKV_popKV, popKV_popKV]
      rw [h1]
      rw [person_repos_setKV_ne _ _ _ (by decide : ("isCommitter" : String) ≠ "repos"),
        setKV_setKV_same]
  | null => rfl
  | bool b => rfl
  | num n => rfl
  | str s => rfl
  | arr xs => rfl

end MigrateRemoveCommitterAuto

namespace MigrateTeamToGroupsOnly

theorem migrate_person_idem_mtg (p : JVal) :
    migrate_person (migrate_person p) = migrate_person p := by
  cases p with
  | obj kvs =>
      simp only [migrate_person]
      cases hg : lookupKV (popKV kvs "team") "groups" with
      | none => simp [migrate_person, popKV_popKV, hg]
      | some g =>
          cases g with
          | arr gs =>
              match gs with
              | [] => simp [migrate_person, popKV_popKV, hg]
              | [g₁] => simp [migrate_person, popKV_popKV, hg]
              | g₁ :: g₂ :: rest =>
                  simp only [migrate_person]
                  rw [popKV_setKV_ne _ _ _ _ (by decide : ("groups" : String) ≠ "team"),
                    popKV_popKV]
                  rw [lookupKV_setKV]
                  simp
          | null => simp [migrate_person, popKV_popKV, hg]
          | bool b => simp [migrate_person, popKV_popKV, hg]
          | num n => simp [migrate_person, popKV_popKV, hg]
          | str s => simp [migrate_person, popKV_popKV, hg]
          | obj o => simp [migrate_person, popKV_popKV, hg]
  | null => rfl
  | bool b => rfl
  | num n => rfl
  | str s => rfl
  | arr xs => rfl

end MigrateTeamToGroupsOnly

namespace RefreshRealnameFromEmail

theorem person_email_str_set_realname (kvs : List (String × JVal)) (v : JVal) :
    person_email_str (setKV kvs "realName" v) = person_email_str kvs := by
  unfold person_email_str
  rw [lookupKV_setKV, if_neg (by decide : ¬ ("realName" : String) = "email")]

theorem person_username_str_set_realname (kvs : List (String × JVal)) (v : JVal) :
    person_username_str (setKV kvs "realName" v) = person_username_str kvs := by
  unfold person_username_str
  rw [lookupKV_setKV, if_neg (by decide : ¬ ("realName" : String) = "username")]

theorem refresh_person_idem (p : JVal) :
    refresh_person (refresh_person p) = refresh_person p := by
  cases p with
  | obj kvs =>
      by_cases hd : derive_pinyin_from_email (person_email_str kvs) = ""
      · have hfix : refresh_person (JVal.obj kvs) = JVal.obj kvs := by
          simp only [refresh_person]
          rw [if_pos hd]
        rw [hfix, hfix]
      · by_cases hw : should_overwrite_realname (person_realname_str kvs)
            (person_username_str kvs) = true
        · have hfix : refresh_person (JVal.obj kvs) =
              JVal.obj (setKV kvs "realName"
                (.str (derive_pinyin_from_email (person_email_str kvs)))) := by
            simp only [refresh_person]
            rw [if_neg hd, if_pos hw]
          rw [hfix]
          simp only [refresh_person]
          rw [person_email_str_set_realname, person_username_str_set_realname, if_neg hd]
          split
          · rw [setKV_setKV_same]
          · rfl
        · have hfix : refresh_person (JVal.obj kvs) = JVal.obj kvs := by
            simp only [refresh_person]
            rw [if_neg hd, if_neg hw]
          rw [hfix, hfix]
  | null => rfl
  | bool b => rfl
  | num n => rfl
  | str s => rfl
  | arr xs => rfl

end RefreshRealnameFromEmail

theorem map_idem_of_idem {f : JVal → JVal} (hf : ∀ p, f (f p) = f p)
    (xs : List JVal) : (xs.map f).map f = xs.map f := by
  induction xs with
  | nil => rfl
  | cons x t ih => simp only [List.map_cons, hf, List.map_map] at ih ⊢; simp [hf, ih]

namespace MigrateRemoveCommitterAuto

theorem process_idem_mra (d : JVal) (now₁ now₂ : String) :
    erase_updatedAt (process (process d now₁) now₂) = erase_updatedAt (process d now₁) := by
  cases d with
  | obj kvs =>
      cases hp : lookupKV kvs "people" with
      | some v =>
          cases v with
          | arr xs =>
              simp only [process, hp]
              have hp1 : lookupKV (setKV (setKV kvs "people"
                  (.arr (xs.map migrate_person))) "updatedAt" (.str now₁)) "people" =
                  some (.arr (xs.map migrate_person)) := by
                rw [lookupKV_setKV, if_neg (by decide : ¬ ("updatedAt" : String) = "people"),
                  lookupKV_setKV, if_pos rfl]
              rw [hp1]
              dsimp only
              rw [map_idem_of_idem migrate_person_idem_mra]
              rw [setKV_of_lookup_eq _ _ _ hp1, setKV_setKV_same]
              simp [erase_updatedAt, popKV_setKV_same]
          | null => simp [process, hp]
          | bool b => simp [process, hp]
          | num n => simp [process, hp]
          | str s => simp [process, hp]
          | obj o => simp [process, hp]
      | none => simp [process, hp]
  | null => rfl
  | bool b => rfl
  | num n => rfl
  | str s => rfl
  | arr xs => rfl

end MigrateRemoveCommitterAuto

namespace MigrateTeamToGroupsOnly

theorem process_idem_mtg (d : JVal) (now₁ now₂ : String) :
    erase_updatedAt (process (process d now₁) now₂) = erase_updatedAt (process d now₁) := by
  cases d with
  | obj kvs =>
      cases hp : lookupKV (popKV kvs "team") "people" with
      | some v =>
          cases v with
          | arr xs =>
              simp only [process, hp]
              have hk₂team : popKV (setKV (popKV kvs "team") "people"
                  (.arr (xs.map migrate_person))) "team" =
                  setKV (popKV kvs "team") "people" (.arr (xs.map migrate_person)) := by
                rw [popKV_setKV_ne _ _ _ _ (by decide : ("people" : String) ≠ "team"),
                  popKV_popKV]
              have hteam1 : popKV (setKV (setKV (popKV kvs "team") "people"
                  (.arr (xs.map migrate_person))) "updatedAt" (.str now₁)) "team" =
                  setKV (setKV (popKV kvs "team") "people"
                    (.arr (xs.map migrate_person))) "updatedAt" (.str now₁) := by
                rw [popKV_setKV_ne _ _ _ _ (by decide : ("updatedAt" : String) ≠ "team"),
                  hk₂team]
              rw [hteam1]
              have hp1 : lookupKV (setKV (setKV (popKV kvs "team") "people"
                  (.arr (xs.map migrate_person))) "updatedAt" (.str now₁)) "people" =
                  some (.arr (xs.map migrate_person)) := by
                rw [lookupKV_setKV, if_neg (by decide : ¬ ("updatedAt" : String) = "people"),
                  lookupKV_setKV, if_pos rfl]
              rw [hp1]
              dsimp only
              rw [map_idem_of_idem migrate_person_idem_mtg]
              rw [setKV_of_lookup_eq _ _ _ hp1, setKV_setKV_same]
              simp [erase_updatedAt, popKV_setKV_same]
          | null => simp only [process, hp]
                    rw [popKV_setKV_ne _ _ _ _ (by decide : ("updatedAt" : String) ≠ "team"),
                      popKV_popKV, lookupKV_setKV,
                      if_neg (by decide : ¬ ("updatedAt" : String) = "people"), hp]
                    rw [setKV_setKV_same]
                    simp [erase_updatedAt, popKV_setKV_same]
          | bool b => simp only [process, hp]
                      rw [popKV_setKV_ne _ _ _ _ (by decide : ("updatedAt" : String) ≠ "team"),
                        popKV_popKV, lookupKV_setKV,
                        if_neg (by decide : ¬ ("updatedAt" : String) = "people"), hp]
                      rw [setKV_setKV_same]
                      simp [erase_updatedAt, popKV_setKV_same]
          | num n => simp only [process, hp]
                     rw [popKV_setKV_ne _ _ _ _ (by decide : ("updatedAt" : String) ≠ "team"),
                       popKV_popKV, lookupKV_setKV,
                       if_neg (by decide : ¬ ("updatedAt" : String) = "people"), hp]
                     rw [setKV_setKV_same]
                     simp [erase_updatedAt, popKV_setKV_same]
          | str s => simp only [process, hp]
                     rw [popKV_setKV_ne _ _ _ _ (by decide : ("updatedAt" : String) ≠ "team"),
                       popKV_popKV, lookupKV_setKV,
                       if_neg (by decide : ¬ ("updatedAt" : String) = "people"), hp]
                     rw [setKV_setKV_same]
                     simp [erase_updatedAt, popKV_setKV_same]
          | obj o => simp only [process, hp]
                     rw [popKV_setKV_ne _ _ _ _ (by decide : ("updatedAt" : String) ≠ "team"),
                       popKV_popKV, lookupKV_setKV,
                       if_neg (by decide : ¬ ("updatedAt" : String) = "people"), hp]
                     rw [setKV_setKV_same]
                     simp [erase_updatedAt, popKV_setKV_same]
      | none => simp only [process, hp]
                rw [popKV_setKV_ne _ _ _ _ (by decide : ("updatedAt" : String) ≠ "team"),
                  popKV_popKV, lookupKV_setKV,
                  if_neg (by decide : ¬ ("updatedAt" : String) = "people"), hp]
                rw [setKV_setKV_same]
                simp [erase_updatedAt, popKV_setKV_same]
  | null => rfl
  | bool b => rfl
  | num n => rfl
  | str s => rfl
  | arr xs => rfl

end MigrateTeamToGroupsOnly

namespace RefreshRealnameFromEmail

theorem process_team_absent (kvs : List (String × JVal)) (dt now : String)
    (h : containsKV kvs "team" = false) :
    process (JVal.obj kvs) dt now =
      process (JVal.obj (setKV kvs "team" (.str dt))) dt now := by
  simp only [process]
  rw [if_neg (by simp [h]), if_pos (by simp [containsKV])]

theorem contains_team_setKV_ne (K : List (String × JVal)) (k : String) (v : JVal)
    (hk : k ≠ "team") (hteam : containsKV K "team" = true) :
    containsKV (setKV K k v) "team" = true := by
  simp only [containsKV, lookupKV_setKV,
    if_neg (show ¬ k = "team" from hk)]
  exact hteam

theorem process_idem_of_team (K : List (String × JVal))
    (hteam : containsKV K "team" = true) (dt now₁ now₂ : String) :
    erase_updatedAt (process (process (JVal.obj K) dt now₁) dt now₂) =
      erase_updatedAt (process (JVal.obj K) dt now₁) := by
  simp only [process]
  rw [if_pos hteam]
  cases hp : lookupKV K "people" with
  | some v =>
      cases v with
      | arr xs =>
          dsimp only
          have hpself : lookupKV (setKV K "people" (.arr (xs.map refresh_person)))
              "people" = some (.arr (xs.map refresh_person)) := by
            rw [lookupKV_setKV, if_pos rfl]
          have huaK : lookupKV (setKV K "people" (.arr (xs.map refresh_person)))
              "updatedAt" = lookupKV K "updatedAt" := by
            rw [lookupKV_setKV, if_neg (by decide : ¬ ("people" : String) = "updatedAt")]
          rw [huaK]
          cases hua : lookupKV K "updatedAt" with
          | some u =>
              cases u with
              | str s =>
                  dsimp only
                  rw [if_pos (contains_team_setKV_ne _ _ _ (by decide)
                    (contains_team_setKV_ne _ _ _ (by decide) hteam))]
                  have hp2 : lookupKV (setKV (setKV K "people"
                      (.arr (xs.map refresh_person))) "updatedAt" (.str now₁))
                      "people" = some (.arr (xs.map refresh_person)) := by
                    rw [lookupKV_setKV,
                      if_neg (by decide : ¬ ("updatedAt" : String) = "people"), hpself]
                  rw [hp2]
                  dsimp only
                  rw [map_idem_of_idem refresh_person_idem]
                  rw [setKV_of_lookup_eq _ _ _ hp2]
                  have hua2 : lookupKV (setKV (setKV K "people"
                      (.arr (xs.map refresh_person))) "updatedAt" (.str now₁))
                      "updatedAt" = some (.str now₁) := by
                    rw [lookupKV_setKV, if_pos rfl]
                  rw [hua2]
                  dsimp only
                  rw [setKV_setKV_same]
                  simp [erase_updatedAt, popKV_setKV_same]
              | null =>
                  dsimp only
                  rw [if_pos (contains_team_setKV_ne _ _ _ (by decide) hteam), hpself]
                  dsimp only
                  rw [map_idem_of_idem refresh_person_idem]
                  rw [setKV_of_lookup_eq _ _ _ hpself, huaK, hua]
              | bool b =>
                  dsimp only
                  rw [if_pos (contains_team_setKV_ne _ _ _ (by decide) hteam), hpself]
                  dsimp only
                  rw [map_idem_of_idem refresh_person_idem]
                  rw [setKV_of_lookup_eq _ _ _ hpself, huaK, hua]
              | num n =>
                  dsimp only
                  rw [if_pos (contains_team_setKV_ne _ _ _ (by decide) hteam), hpself]
                  dsimp only
                  rw [map_idem_of_idem refresh_person_idem]
                  rw [setKV_of_lookup_eq _ _ _ hpself, huaK, hua]
              | arr a =>
                  dsimp only
                  rw [if_pos (contains_team_setKV_ne _ _ _ (by decide) hteam), hpself]
                  dsimp only
                  rw [map_idem_of_idem refresh_person_idem]
                  rw [setKV_of_lookup_eq _ _ _ hpself, huaK, hua]
              | obj o =>
                  dsimp only
                  rw [if_pos (contains_team_setKV_ne _ _ _ (by decide) hteam), hpself]
                  dsimp only
                  rw [map_idem_of_idem refresh_person_idem]
                  rw [setKV_of_lookup_eq _ _ _ hpself, huaK, hua]
          | none =>
              dsimp only
              rw [if_pos (contains_team_setKV_ne _ _ _ (by decide) hteam), hpself]
              dsimp only
              rw [map_idem_of_idem refresh_person_idem]
              rw [setKV_of_lookup_eq _ _ _ hpself, huaK, hua]
      | null => dsimp only; rw [if_pos hteam, hp]
      | bool b => dsimp only; rw [if_pos hteam, hp]
      | num n => dsimp only; rw [if_pos hteam, hp]
      | str s => dsimp only; rw [if_pos hteam, hp]
      | obj o => dsimp only; rw [if_pos hteam, hp]
  | none => dsimp only; rw [if_pos hteam, hp]

end RefreshRealnameFromEmail

/-- C4: each of the three Migration Steps (drop-legacy-committer-fields,
collapse-membership, derive-realName-from-email) is idempotent modulo the
top-level updatedAt timestamp: running it twice yields the same document
as running it once, apart from updatedAt. -/
theorem claim_C4 (d : JVal) (default_team now₁ now₂ : String) :
    erase_updatedAt (MigrateRemoveCommitterAuto.process
        (MigrateRemoveCommitterAuto.process d now₁) now₂) =
      erase_updatedAt (MigrateRemoveCommitterAuto.process d now₁) ∧
    erase_updatedAt (MigrateTeamToGroupsOnly.process
        (MigrateTeamToGroupsOnly.process d now₁) now₂) =
      erase_updatedAt (MigrateTeamToGroupsOnly.process d now₁) ∧
    erase_updatedAt (RefreshRealnameFromEmail.process
        (RefreshRealnameFromEmail.process d default_team now₁) default_team now₂) =
      erase_updatedAt (RefreshRealnameFromEmail.process d default_team now₁) := by
  refine ⟨MigrateRemoveCommitterAuto.process_idem_mra d now₁ now₂,
    MigrateTeamToGroupsOnly.process_idem_mtg d now₁ now₂, ?_⟩
  cases d with
  | obj kvs =>
      by_cases ht : containsKV kvs "team" = true
      · exact RefreshRealnameFromEmail.process_idem_of_team kvs ht default_team now₁ now₂
      · rw [RefreshRealnameFromEmail.process_team_absent kvs default_team now₁
          (by simpa using ht)]
        exact RefreshRealnameFromEmail.process_idem_of_team _
          (by simp [containsKV]) default_team now₁ now₂
  | null => rfl
  | bool b => rfl
  | num n => rfl
  | str s => rfl
  | arr xs => rfl

/-- Is the value a JSON object (a Python dict)? -/
def JVal.isObj : JVal → Bool
  | .obj _ => true
  | _ => false

namespace RefreshMemberRoles

theorem recompute_person_invariant (kvs : List (String × JVal)) :
    committer_invariant (recompute_person (JVal.obj kvs)).1 := by
  simp only [recompute_person]
  split
  · rename_i h
    unfold committer_invariant person_committer
    simp only [jGet_obj] at h ⊢
    exact h
  · unfold committer_invariant
    simp only [jGet_obj]
    rw [lookupKV_setKV, if_pos rfl,
      person_committer_setKV_ne _ _ _ (by decide : ("isCommitter" : String) ≠ "repos")]
    rfl

theorem recompute_person_not_obj (q : JVal) (h : q.isObj = false) :
    (recompute_person q).1 = q := by
  cases q <;> simp_all [recompute_person, JVal.isObj]

theorem doc_people_recompute (team : JVal) :
    doc_people (recompute_committers team).1 =
      (doc_people team).map (fun q => (recompute_person q).1) := by
  cases team with
  | obj kvs =>
      cases hp : lookupKV kvs "people" with
      | some v =>
          cases v with
          | arr xs =>
              simp only [recompute_committers, hp, doc_people, jGet_obj]
              rw [lookupKV_setKV, if_pos rfl]
              simp [List.map_map]
          | null => simp [recompute_committers, doc_people, hp]
          | bool b => simp [recompute_committers, doc_people, hp]
          | num n => simp [recompute_committers, doc_people, hp]
          | str s => simp [recompute_committers, doc_people, hp]
          | obj o => simp [recompute_committers, doc_people, hp]
      | none => simp [recompute_committers, doc_people, hp]
  | null => rfl
  | bool b => rfl
  | num n => rfl
  | str s => rfl
  | arr xs => rfl

end RefreshMemberRoles

namespace MigrateRemoveCommitterAuto

theorem migrate_person_invariant_mra (kvs : List (String × JVal)) :
    committer_invariant (migrate_person (JVal.obj kvs)) := by
  simp only [migrate_person]
  unfold committer_invariant
  simp only [jGet_obj]
  rw [lookupKV_setKV, if_pos rfl,
    person_committer_setKV_ne _ _ _ (by decide : ("isCommitter" : String) ≠ "repos")]
  rfl

theorem migrate_person_not_obj_mra (q : JVal) (h : q.isObj = false) :
    migrate_person q = q := by
  cases q <;> simp_all [migrate_person, JVal.isObj]

theorem doc_people_process_mra (d : JVal) (now : String) :
    doc_people (process d now) = (doc_people d).map migrate_person := by
  cases d with
  | obj kvs =>
      cases hp : lookupKV kvs "people" with
      | some v =>
          cases v with
          | arr xs =>
              simp only [process, hp, doc_people, jGet_obj]
              rw [lookupKV_setKV, if_neg (by decide : ¬ ("updatedAt" : String) = "people"),
                lookupKV_setKV, if_pos rfl]
          | null => simp [process, doc_people, hp]
          | bool b => simp [process, doc_people, hp]
          | num n => simp [process, doc_people, hp]
          | str s => simp [process, doc_people, hp]
          | obj o => simp [process, doc_people, hp]
      | none => simp [process, doc_people, hp]
  | null => rfl
  | bool b => rfl
  | num n => rfl
  | str s => rfl
  | arr xs => rfl

end MigrateRemoveCommitterAuto

namespace MigrateTeamToGroupsOnly

theorem migrate_person_invariant_mtg (p : JVal)
    (h : committer_invariant p) : committer_invariant (migrate_person p) := by
  cases p with
  | obj kvs =>
      simp only [migrate_person]
      have hpop : committer_invariant (JVal.obj (popKV kvs "team")) :=
        committer_invariant_popKV_ne _ _ (by decide) (by decide) h
      split
      · exact committer_invariant_setKV_ne _ _ _ (by decide) (by decide) hpop
      · exact hpop
  | null => exact h
  | bool b => exact h
  | num n => exact h
  | str s => exact h
  | arr xs => exact h

theorem migrate_person_not_obj_mtg (q : JVal) (h : q.isObj = false) :
    migrate_person q = q := by
  cases q <;> simp_all [migrate_person, JVal.isObj]

theorem doc_people_process_mtg (d : JVal) (now : String) :
    doc_people (process d now) = (doc_people d).map migrate_person := by
  cases d with
  | obj kvs =>
      have hpk : lookupKV (popKV kvs "team") "people" = lookupKV kvs "people" := by
        rw [lookupKV_popKV, if_neg (by decide : ¬ ("team" : String) = "people")]
      cases hp : lookupKV kvs "people" with
      | some v =>
          cases v with
          | arr xs =>
              simp only [process, hpk, hp, doc_people, jGet_obj]
              rw [lookupKV_setKV, if_neg (by decide : ¬ ("updatedAt" : String) = "people"),
                lookupKV_setKV, if_pos rfl]
          | null => simp only [process, hpk, hp, doc_people, jGet_obj]
                    rw [lookupKV_setKV,
                      if_neg (by decide : ¬ ("updatedAt" : String) = "people"), hpk, hp]
                    rfl
          | bool b => simp only [process, hpk, hp, doc_people, jGet_obj]
                      rw [lookupKV_setKV,
                        if_neg (by decide : ¬ ("updatedAt" : String) = "people"), hpk, hp]
                      rfl
          | num n => simp only [process, hpk, hp, doc_people, jGet_obj]
                     rw [lookupKV_setKV,
                       if_neg (by decide : ¬ ("updatedAt" : String) = "people"), hpk, hp]
                     rfl
          | str s => simp only [process, hpk, hp, doc_people, jGet_obj]
                     rw [lookupKV_setKV,
                       if_neg (by decide : ¬ ("updatedAt" : String) = "people"), hpk, hp]
                     rfl
          | obj o => simp only [process, hpk, hp, doc_people, jGet_obj]
                     rw [lookupKV_setKV,
                       if_neg (by decide : ¬ ("updatedAt" : String) = "people"), hpk, hp]
                     rfl
      | none => simp only [process, hpk, hp, doc_people, jGet_obj]
                rw [lookupKV_setKV,
                  if_neg (by decide : ¬ ("updatedAt" : String) = "people"), hpk, hp]
                rfl
  | null => rfl
  | bool b => rfl
  | num n => rfl
  | str s => rfl
  | arr xs => rfl

end MigrateTeamToGroupsOnly

namespace RefreshRealnameFromEmail

theorem refresh_person_invariant (p : JVal)
    (h : committer_invariant p) : committer_invariant (refresh_person p) := by
  cases p with
  | obj kvs =>
      simp only [refresh_person]
      split
      · exact h
      · split
        · exact committer_invariant_setKV_ne _ _ _ (by decide) (by decide) h
        · exact h
  | null => exact h
  | bool b => exact h
  | num n => exact h
  | str s => exact h
  | arr xs => exact h

theorem refresh_person_not_obj (q : JVal) (h : q.isObj = false) :
    refresh_person q = q := by
  cases q <;> simp_all [refresh_person, JVal.isObj]

theorem doc_people_process_rre (d : JVal) (dt now : String) :
    doc_people (process d dt now) = (doc_people d).map refresh_person := by
  cases d with
  | obj kvs =>
      simp only [process]
      have hpk : lookupKV (if containsKV kvs "team" then kvs
          else setKV kvs "team" (.str dt)) "people" = lookupKV kvs "people" := by
        split
        · rfl
        · rw [lookupKV_setKV, if_neg (by decide : ¬ ("team" : String) = "people")]
      cases hp : lookupKV kvs "people" with
      | some v =>
          cases v with
          | arr xs =>
              rw [hpk, hp]
              dsimp only
              have hp2 : lookupKV (setKV (if containsKV kvs "team" then kvs
                  else setKV kvs "team" (.str dt)) "people"
                  (.arr (xs.map refresh_person))) "people" =
                  some (.arr (xs.map refresh_person)) := by
                rw [lookupKV_setKV, if_pos rfl]
              cases hua : lookupKV (setKV (if containsKV kvs "team" then kvs
                  else setKV kvs "team" (.str dt)) "people"
                  (.arr (xs.map refresh_person))) "updatedAt" with
              | some u =>
                  cases u with
                  | str s =>
                      simp only [doc_people, jGet_obj]
                      rw [lookupKV_setKV,
                        if_neg (by decide : ¬ ("updatedAt" : String) = "people"), hp2, hp]
                  | null => simp only [doc_people, jGet_obj]
                            rw [hp2, hp]
                  | bool b => simp only [doc_people, jGet_obj]
                              rw [hp2, hp]
                  | num n => simp only [doc_people, jGet_obj]
                             rw [hp2, hp]
                  | arr a => simp only [doc_people, jGet_obj]
                             rw [hp2, hp]
                  | obj o => simp only [doc_people, jGet_obj]
                             rw [hp2, hp]
              | none => simp only [doc_people, jGet_obj]
                        rw [hp2, hp]
          | null => rw [hpk, hp]; simp [doc_people, hpk, hp]
          | bool b => rw [hpk, hp]; simp [doc_people, hpk, hp]
          | num n => rw [hpk, hp]; simp [doc_people, hpk, hp]
          | str s => rw [hpk, hp]; simp [doc_people, hpk, hp]
          | obj o => rw [hpk, hp]; simp [doc_people, hpk, hp]
      | none => rw [hpk, hp]; simp [doc_people, hpk, hp]
  | null => rfl
  | bool b => rfl
  | num n => rfl
  | str s => rfl
  | arr xs => rfl

end RefreshRealnameFromEmail

instance (p : JVal) : Decidable (committer_invariant p) := by
  unfold committer_invariant
  infer_instance

/-- C1: the isCommitter field always equals the OR-reduction of the Role
Classifier over the person's repos entries: it is recomputed from repos by
every Person Reconciler call (merge_person), by recompute_committers, and
by the drop-legacy-fields migration; the two remaining migration steps
(collapse-membership and derive-realName) never touch repos or
isCommitter, so they preserve the invariant. -/
theorem claim_C1 :
    (∀ existing incoming : JVal,
      committer_invariant (CollectGitcodeMembers.merge_person existing incoming)) ∧
    (∀ team : JVal, ∀ p ∈ doc_people (RefreshMemberRoles.recompute_committers team).1,
      p.isObj = true → committer_invariant p) ∧
    (∀ d : JVal, ∀ now : String,
      ∀ p ∈ doc_people (MigrateRemoveCommitterAuto.process d now),
      p.isObj = true → committer_invariant p) ∧
    (∀ d : JVal, ∀ now : String,
      (∀ q ∈ doc_people d, q.isObj = true → committer_invariant q) →
      ∀ p ∈ doc_people (MigrateTeamToGroupsOnly.process d now),
        p.isObj = true → committer_invariant p) ∧
    (∀ d : JVal, ∀ dt now : String,
      (∀ q ∈ doc_people d, q.isObj = true → committer_invariant q) →
      ∀ p ∈ doc_people (RefreshRealnameFromEmail.process d dt now),
        p.isObj = true → committer_invariant p) := by
  refine ⟨CollectGitcodeMembers.merge_person_invariant, ?_, ?_, ?_, ?_⟩
  · intro team p hp hobj
    rw [RefreshMemberRoles.doc_people_recompute] at hp
    obtain ⟨q, hq, rfl⟩ := List.mem_map.mp hp
    cases q with
    | obj kvs => exact RefreshMemberRoles.recompute_person_invariant kvs
    | null => simp [RefreshMemberRoles.recompute_person, JVal.isObj] at hobj
    | bool b => simp [RefreshMemberRoles.recompute_person, JVal.isObj] at hobj
    | num n => simp [RefreshMemberRoles.recompute_person, JVal.isObj] at hobj
    | str s => simp [RefreshMemberRoles.recompute_person, JVal.isObj] at hobj
    | arr xs => simp [RefreshMemberRoles.recompute_person, JVal.isObj] at hobj
  · intro d now p hp hobj
    rw [MigrateRemoveCommitterAuto.doc_people_process_mra] at hp
    obtain ⟨q, hq, rfl⟩ := List.mem_map.mp hp
    cases q with
    | obj kvs => exact MigrateRemoveCommitterAuto.migrate_person_invariant_mra kvs
    | null => simp [MigrateRemoveCommitterAuto.migrate_person, JVal.isObj] at hobj
    | bool b => simp [MigrateRemoveCommitterAuto.migrate_person, JVal.isObj] at hobj
    | num n => simp [MigrateRemoveCommitterAuto.migrate_person, JVal.isObj] at hobj
    | str s => simp [MigrateRemoveCommitterAuto.migrate_person, JVal.isObj] at hobj
    | arr xs => simp [MigrateRemoveCommitterAuto.migrate_person, JVal.isObj] at hobj
  · intro d now hinv p hp hobj
    rw [MigrateTeamToGroupsOnly.doc_people_process_mtg] at hp
    obtain ⟨q, hq, rfl⟩ := List.mem_map.mp hp
    cases q with
    | obj kvs =>
        exact MigrateTeamToGroupsOnly.migrate_person_invariant_mtg _
          (hinv _ hq (by simp [JVal.isObj]))
    | null => simp [MigrateTeamToGroupsOnly.migrate_person, JVal.isObj] at hobj
    | bool b => simp [MigrateTeamToGroupsOnly.migrate_person, JVal.isObj] at hobj
    | num n => simp [MigrateTeamToGroupsOnly.migrate_person, JVal.isObj] at hobj
    | str s => simp [MigrateTeamToGroupsOnly.migrate_person, JVal.isObj] at hobj
    | arr xs => simp [MigrateTeamToGroupsOnly.migrate_person, JVal.isObj] at hobj
  · intro d dt now hinv p hp hobj
    rw [RefreshRealnameFromEmail.doc_people_process_rre] at hp
    obtain ⟨q, hq, rfl⟩ := List.mem_map.mp hp
    cases q with
    | obj kvs =>
        exact RefreshRealnameFromEmail.refresh_person_invariant _
          (hinv _ hq (by simp [JVal.isObj]))
    | null => simp [RefreshRealnameFromEmail.refresh_person, JVal.isObj] at hobj
    | bool b => simp [RefreshRealnameFromEmail.refresh_person, JVal.isObj] at hobj
    | num n => simp [RefreshRealnameFromEmail.refresh_person, JVal.isObj] at hobj
    | str s => simp [RefreshRealnameFromEmail.refresh_person, JVal.isObj] at hobj
    | arr xs => simp [RefreshRealnameFromEmail.refresh_person, JVal.isObj] at hobj

/-- C1 witness: concrete one-person rosters run through each operation. -/
theorem claim_C1_witness :
    committer_invariant (CollectGitcodeMembers.merge_person (JVal.obj []) (JVal.obj [])) ∧
    committer_invariant (JVal.obj [("username", JVal.str "a"),
      ("isCommitter", JVal.bool false)]) ∧
    committer_invariant (JVal.obj [("username", JVal.str "b"),
      ("isCommitter", JVal.bool false)]) ∧
    committer_invariant (JVal.obj [("username", JVal.str "c"),
      ("isCommitter", JVal.bool false)]) ∧
    committer_invariant (JVal.obj [("username", JVal.str "d"),
      ("isCommitter", JVal.bool false)]) := by
  refine ⟨claim_C1.1 (JVal.obj []) (JVal.obj []), ?_, ?_, ?_, ?_⟩
  · exact claim_C1.2.1
      (JVal.obj [("people", JVal.arr [JVal.obj [("username", JVal.str "a")]])])
      (JVal.obj [("username", JVal.str "a"), ("isCommitter", JVal.bool false)])
      (by decide) (by decide)
  · exact claim_C1.2.2.1
      (JVal.obj [("people", JVal.arr [JVal.obj [("username", JVal.str "b")]])]) "T"
      (JVal.obj [("username", JVal.str "b"), ("isCommitter", JVal.bool false)])
      (by decide) (by decide)
  · exact claim_C1.2.2.2.1
      (JVal.obj [("people", JVal.arr [JVal.obj [("username", JVal.str "c"),
        ("isCommitter", JVal.bool false), ("team", JVal.str "x")]])]) "T"
      (by decide)
      (JVal.obj [("username", JVal.str "c"), ("isCommitter", JVal.bool false)])
      (by decide) (by decide)
  · exact claim_C1.2.2.2.2
      (JVal.obj [("people", JVal.arr [JVal.obj [("username", JVal.str "d"),
        ("isCommitter", JVal.bool false)]])]) "" "T"
      (by decide)
      (JVal.obj [("username", JVal.str "d"), ("isCommitter", JVal.bool false)])
      (by decide) (by decide)

open RefreshRealnameFromEmail in
/-- C7 counterexample: the code trims both realName and username before
comparing, so a realName of "alice " (non-empty, not exactly equal to the
username "alice") IS overwritten by the derived name, contradicting the
claim's "exactly equals" / "never overwrites" wording. -/
theorem claim_C7_counterexample :
    jGet (refresh_person (JVal.obj [("username", .str "alice"),
        ("realName", .str "alice "), ("email", .str "zhang.san3@huawei.com")]))
      "realName" = some (.str "zhangsan") ∧
    ("alice " : String) ≠ "alice" ∧ ("alice " : String) ≠ "" := by
  refine ⟨?_, by decide, by decide⟩
  rfl

open RefreshRealnameFromEmail in
/-- C7 (amended): a name is derived only for emails whose stripped,
lower-cased form matches the corporate-domain pattern; the example email
"zhang.san3@huawei.com" derives "zhangsan" (digits stripped, non-letters
stripped, lowercased); the derived name is assigned only when the current
realName is empty after trimming or equals the username after trimming
both; when the overwrite test fails the realName field is untouched. -/
theorem claim_C7 :
    (∀ e : String,
      emailDomainSearch ((pyStrip e).data.map asciiLower) = false →
      derive_pinyin_from_email e = "") ∧
    derive_pinyin_from_email "zhang.san3@huawei.com" = "zhangsan" ∧
    (∀ rn un : String, should_overwrite_realname rn un = true ↔
      (pyStrip rn = "" ∨ pyStrip rn = pyStrip un)) ∧
    (∀ kvs : List (String × JVal),
      should_overwrite_realname (person_realname_str kvs) (person_username_str kvs)
          = false →
      jGet (refresh_person (JVal.obj kvs)) "realName" = lookupKV kvs "realName") ∧
    (∀ kvs : List (String × JVal),
      derive_pinyin_from_email (person_email_str kvs) ≠ "" →
      should_overwrite_realname (person_realname_str kvs) (person_username_str kvs)
          = true →
      jGet (refresh_person (JVal.obj kvs)) "realName" =
        some (.str (derive_pinyin_from_email (person_email_str kvs)))) := by
  refine ⟨?_, by rfl, ?_, ?_, ?_⟩
  · intro e h
    unfold derive_pinyin_from_email
    by_cases h1 : pyStrip e = ""
    · simp [h1]
    · by_cases h2 : '@' ∈ (pyStrip e).data
      · simp [h1, h2, h]
      · simp [h1, h2]
  · intro rn un
    unfold should_overwrite_realname
    by_cases h1 : pyStrip rn = ""
    · simp [h1]
    · by_cases h2 : pyStrip rn = pyStrip un <;> simp [h1, h2]
  · intro kvs h
    simp only [refresh_person]
    split
    · rfl
    · rw [if_neg (by simp [h])]
      rfl
  · intro kvs hd hs
    simp only [refresh_person]
    rw [if_neg hd, if_pos hs]
    simp only [jGet_obj]
    rw [lookupKV_setKV, if_pos rfl]

open RefreshRealnameFromEmail in
/-- C7 witness: a non-matching email derives nothing; the overwrite test is
the trimmed comparison; a curated "Alice Zhang" is never overwritten. -/
theorem claim_C7_witness :
    derive_pinyin_from_email "a@b.com" = "" ∧
    (should_overwrite_realname "x" "y" = true ↔
      (pyStrip "x" = "" ∨ pyStrip "x" = pyStrip "y")) ∧
    jGet (refresh_person (JVal.obj [("username", .str "u"),
        ("realName", .str "Alice Zhang"), ("email", .str "zhang.san@huawei.com")]))
      "realName" = some (.str "Alice Zhang") ∧
    jGet (refresh_person (JVal.obj [("username", .str "u"),
        ("realName", .str ""), ("email", .str "zhang.san@huawei.com")]))
      "realName" = some (.str "zhangsan") := by
  refine ⟨claim_C7.1 "a@b.com" (by decide), claim_C7.2.2.1 "x" "y", ?_, ?_⟩
  · exact (claim_C7.2.2.2.1 [("username", .str "u"), ("realName", .str "Alice Zhang"),
      ("email", .str "zhang.san@huawei.com")] (by decide)).trans (by decide)
  · exact (claim_C7.2.2.2.2 [("username", .str "u"), ("realName", .str ""),
      ("email", .str "zhang.san@huawei.com")] (by decide) (by decide))

/-- C10: the derive-realName migration always ensures a top-level "team"
key (inserting the configurable default when absent, keeping the stored
value otherwise) — reintroducing the field that the collapse-membership
migration removes (its output never has a "team" key) — and it rewrites
the top-level updatedAt only when the input updatedAt is string-valued
(otherwise the stored updatedAt value is returned unchanged). -/
theorem claim_C10 (d : JVal) (dt now : String) :
    (d.isObj = true →
      (jGet d "team" = none →
        jGet (RefreshRealnameFromEmail.process d dt now) "team" = some (.str dt)) ∧
      (∀ v, jGet d "team" = some v →
        jGet (RefreshRealnameFromEmail.process d dt now) "team" = some v)) ∧
    ((∀ s, jGet d "updatedAt" ≠ some (.str s)) →
      jGet (RefreshRealnameFromEmail.process d dt now) "updatedAt" =
        jGet d "updatedAt") ∧
    jGet (MigrateTeamToGroupsOnly.process d now) "team" = none := by
  refine ⟨?_, ?_, ?_⟩
  · intro hobj
    cases d with
    | obj kvs =>
        simp only [RefreshRealnameFromEmail.process, jGet_obj]
        constructor
        · intro habs
          have hc : containsKV kvs "team" = false := by
            simp [containsKV, habs]
          rw [if_neg (by simp [hc])]
          have hteam : lookupKV (setKV kvs "team" (.str dt)) "team" =
              some (.str dt) := by
            rw [lookupKV_setKV, if_pos rfl]
          cases hp : lookupKV (setKV kvs "team" (.str dt)) "people" with
          | some v =>
              cases v with
              | arr xs =>
                  dsimp only
                  have hteam2 : lookupKV (setKV (setKV kvs "team" (.str dt)) "people"
                      (.arr (xs.map RefreshRealnameFromEmail.refresh_person)))
                      "team" = some (.str dt) := by
                    rw [lookupKV_setKV,
                      if_neg (by decide : ¬ ("people" : String) = "team"), hteam]
                  split
                  · simp only [jGet_obj]
                    rw [lookupKV_setKV,
                      if_neg (by decide : ¬ ("updatedAt" : String) = "team"), hteam2]
                  · simp only [jGet_obj]
                    exact hteam2
              | null => exact hteam
              | bool b => exact hteam
              | num n => exact hteam
              | str s => exact hteam
              | obj o => exact hteam
          | none => exact hteam
        · intro v hv
          have hc : containsKV kvs "team" = true := by
            simp [containsKV, hv]
          rw [if_pos hc]
          cases hp : lookupKV kvs "people" with
          | some w =>
              cases w with
              | arr xs =>
                  dsimp only
                  have hteam2 : lookupKV (setKV kvs "people"
                      (.arr (xs.map RefreshRealnameFromEmail.refresh_person)))
                      "team" = some v := by
                    rw [lookupKV_setKV,
                      if_neg (by decide : ¬ ("people" : String) = "team")]
                    exact hv
                  split
                  · simp only [jGet_obj]
                    rw [lookupKV_setKV,
                      if_neg (by decide : ¬ ("updatedAt" : String) = "team"), hteam2]
                  · simp only [jGet_obj]
                    exact hteam2
              | null => exact hv
              | bool b => exact hv
              | num n => exact hv
              | str s => exact hv
              | obj o => exact hv
          | none => exact hv
    | null => simp [JVal.isObj] at hobj
    | bool b => simp [JVal.isObj] at hobj
    | num n => simp [JVal.isObj] at hobj
    | str s => simp [JVal.isObj] at hobj
    | arr xs => simp [JVal.isObj] at hobj
  · intro hns
    cases d with
    | obj kvs =>
        simp only [RefreshRealnameFromEmail.process, jGet_obj]
        have hua : ∀ K : List (String × JVal),
            lookupKV K "updatedAt" = lookupKV kvs "updatedAt" →
            lookupKV K "updatedAt" ≠ (none : Option JVal) → True := fun _ _ _ => trivial
        have huak : lookupKV (if containsKV kvs "team" then kvs
            else setKV kvs "team" (.str dt)) "updatedAt" = lookupKV kvs "updatedAt" := by
          split
          · rfl
          · rw [lookupKV_setKV, if_neg (by decide : ¬ ("team" : String) = "updatedAt")]
        cases hp : lookupKV (if containsKV kvs "team" then kvs
            else setKV kvs "team" (.str dt)) "people" with
        | some v =>
            cases v with
            | arr xs =>
                dsimp only
                have hua2 : lookupKV (setKV (if containsKV kvs "team" then kvs
                    else setKV kvs "team" (.str dt)) "people"
                    (.arr (xs.map RefreshRealnameFromEmail.refresh_person)))
                    "updatedAt" = lookupKV kvs "updatedAt" := by
                  rw [lookupKV_setKV,
                    if_neg (by decide : ¬ ("people" : String) = "updatedAt"), huak]
                rw [hua2]
                cases hu : lookupKV kvs "updatedAt" with
                | some u =>
                    cases u with
                    | str s => exact absurd hu (hns s)
                    | null => simp only [jGet_obj]; rw [hua2, hu]
                    | bool b => simp only [jGet_obj]; rw [hua2, hu]
                    | num n => simp only [jGet_obj]; rw [hua2, hu]
                    | arr a => simp only [jGet_obj]; rw [hua2, hu]
                    | obj o => simp only [jGet_obj]; rw [hua2, hu]
                | none => simp only [jGet_obj]; rw [hua2, hu]
            | null => exact huak
            | bool b => exact huak
            | num n => exact huak
            | str s => exact huak
            | obj o => exact huak
        | none => exact huak
    | null => rfl
    | bool b => rfl
    | num n => rfl
    | str s => rfl
    | arr xs => rfl
  · cases d with
    | obj kvs =>
        simp only [MigrateTeamToGroupsOnly.process, jGet_obj]
        have hteam : lookupKV (popKV kvs "team") "team" = none := by
          rw [lookupKV_popKV, if_pos rfl]
        cases hp : lookupKV (popKV kvs "team") "people" with
        | some v =>
            cases v with
            | arr xs =>
                dsimp only
                rw [lookupKV_setKV, if_neg (by decide : ¬ ("updatedAt" : String) = "team"),
                  lookupKV_setKV, if_neg (by decide : ¬ ("people" : String) = "team"),
                  hteam]
            | null => rw [lookupKV_setKV,
                        if_neg (by decide : ¬ ("updatedAt" : String) = "team"), hteam]
            | bool b => rw [lookupKV_setKV,
                          if_neg (by decide : ¬ ("updatedAt" : String) = "team"), hteam]
            | num n => rw [lookupKV_setKV,
                         if_neg (by decide : ¬ ("updatedAt" : String) = "team"), hteam]
            | str s => rw [lookupKV_setKV,
                         if_neg (by decide : ¬ ("updatedAt" : String) = "team"), hteam]
            | obj o => rw [lookupKV_setKV,
                         if_neg (by decide : ¬ ("updatedAt" : String) = "team"), hteam]
        | none => rw [lookupKV_setKV,
                    if_neg (by decide : ¬ ("updatedAt" : String) = "team"), hteam]
    | null => rfl
    | bool b => rfl
    | num n => rfl
    | str s => rfl
    | arr xs => rfl

/-- C10 witness: a document with a non-string updatedAt and no team key. -/
theorem claim_C10_witness :
    jGet (RefreshRealnameFromEmail.process (JVal.obj [("updatedAt", .num 3)]) "" "T")
      "team" = some (.str "") ∧
    jGet (RefreshRealnameFromEmail.process (JVal.obj [("updatedAt", .num 3)]) "" "T")
      "updatedAt" = some (.num 3) ∧
    jGet (MigrateTeamToGroupsOnly.process (JVal.obj [("team", .str "x")]) "T")
      "team" = none := by
  refine ⟨((claim_C10 (JVal.obj [("updatedAt", .num 3)]) "" "T").1 (by decide)).1
    (by decide), ?_, (claim_C10 (JVal.obj [("team", .str "x")]) "" "T").2.2⟩
  · have h := (claim_C10 (JVal.obj [("updatedAt", .num 3)]) "" "T").2.1
      (by intro s hs; simp [jGet, lookupKV] at hs)
    exact h.trans (by decide)

/-! ### tools/collect_gitcode_members.py: the Roster Aggregator (`main`,
lines 337-452).  Transport is opaque: each (owner, repo) target carries the
outcome `fetch_collaborators` would produce — either the fetched raw item
list with the pages-fetched count, or the error message of the raised
RuntimeError.  The optional `--email-lookup` enrichment is off, as by
default. -/

namespace CollectGitcodeMembers

/-- Python `to_str_id(v)` (lines 154-157). -/
def to_str_id : JVal → String
  | .null => ""
  | v => pyStr v

/-- Python `pick_real_name`'s per-key probe: first key whose value is a
string with non-empty strip. -/
def pick_first_str (m : JVal) : List String → Option String
  | [] => none
  | k :: ks =>
      match jGet m k with
      | some (.str s) => if pyStrip s ≠ "" then some (pyStrip s) else pick_first_str m ks
      | _ => pick_first_str m ks

/-- Python `pick_real_name(member)` (lines 143-151). -/
def pick_real_name (m : JVal) : String :=
  (pick_first_str m ["name_cn", "name", "nick_name", "username"]).getD ""

/-- Username validation of the member loop (lines 379-382): a string,
non-empty after strip, returned stripped. -/
def member_valid_username (m : JVal) : Option String :=
  match jGet m "username" with
  | some (.str s) => if pyStrip s = "" then none else some (pyStrip s)
  | _ => none

/-- Member-loop body building the incoming observation (lines 378-422),
returning the (stripped) username with the observation dict, or none when
the username is missing or blank. -/
def member_observation (owner repo : String) (m : JVal) : Option (String × JVal) :=
  match member_valid_username m with
  | none => none
  | some username =>
      let permissions := match jGet m "permissions" with
        | some (.obj pk) => JVal.obj pk
        | _ => JVal.obj []
      let email := match jGet m "email" with
        | some (.str es) => pyStrip es
        | _ => ""
      let permission_str := match jGet m "permission" with
        | some (.str ps) => ps
        | _ => ""
      let role_name := match jGet m "role_name" with
        | some (.str rs) => rs
        | _ => ""
      let role_name_cn := match jGet m "role_name_cn" with
        | some (.str rs) => rs
        | _ => ""
      let access_level := match jGet m "access_level" with
        | some (.num n) => JVal.num n
        | some (.bool b) => JVal.bool b
        | _ => JVal.null
      let is_committer := is_cangjie_committer_role (.str role_name_cn) (.str role_name)
      some (username, JVal.obj [
        ("username", .str username),
        ("gitcodeId", .str (to_str_id ((jGet m "id").getD .null))),
        ("realName", .str (pick_real_name m)),
        ("email", .str email),
        ("isConfirmed", .bool false),
        ("isCommitter", .bool is_committer),
        ("isLeader", .bool false),
        ("notes", .str ""),
        ("groups", .arr []),
        ("repos", .arr [JVal.obj [
          ("owner", .str owner),
          ("repo", .str repo),
          ("permission", .str permission_str),
          ("roleName", .str role_name),
          ("roleNameCn", .str role_name_cn),
          ("accessLevel", access_level),
          ("permissions", permissions)]])])

/-- Python `index_people(existing)` (lines 248-259). -/
def index_people (existing : JVal) : List (String × JVal) :=
  match jGet existing "people" with
  | some (.arr people) =>
      people.foldl (fun acc p =>
        match p with
        | .obj pk =>
            match lookupKV pk "username" with
            | some (.str s) => if pyStrip s ≠ "" then setKV acc (pyStrip s) p else acc
            | _ => acc
        | _ => acc) []
  | _ => []

/-- Update of the in-run accumulation map for one raw member
(lines 424-433): merge with in-run state if seen, else merge with the
prior roster record, else take the observation verbatim. -/
def merge_member (ep acc : List (String × JVal)) (owner repo : String) (m : JVal) :
    List (String × JVal) :=
  match member_observation owner repo m with
  | none => acc
  | some (u, inc) =>
      match lookupKV acc u with
      | some prior => setKV acc u (merge_person prior inc)
      | none =>
          match lookupKV ep u with
          | some ex => acc ++ [(u, merge_person ex inc)]
          | none => acc ++ [(u, inc)]

/-- Source entry recorded on fetch success (lines 353-360 with the meta of
`fetch_collaborators`). -/
def source_ok (owner repo now : String) (perPage pagesFetched memberCount : Int) : JVal :=
  .obj [("owner", .str owner), ("repo", .str repo), ("fetchedAt", .str now),
    ("pageSize", .num perPage), ("pagesFetched", .num pagesFetched),
    ("memberCount", .num memberCount)]

/-- Source entry recorded on fetch failure (lines 362-372): memberCount 0
and an error note truncated to the first line. -/
def source_err (owner repo now : String) (perPage : Int) (msg : String) : JVal :=
  .obj [("owner", .str owner), ("repo", .str repo), ("fetchedAt", .str now),
    ("pageSize", .num perPage), ("pagesFetched", .num 0), ("memberCount", .num 0),
    ("notes", .str ("error: " ++ pyFirstLine msg))]

/-- One fetch target with the outcome of its fetch: the raw item list plus
pages-fetched count, or the error message. -/
def Target := String × String × Except String (List JVal × Int)

/-- The per-repository loop of `main` (lines 349-433): record a source
entry and fold the members in; on failure continue (appending the error
source entry) or abort. -/
def run_targets (ep : List (String × JVal)) (coe : Bool) (perPage : Int) (now : String) :
    List (String × JVal) × List JVal → List Target →
    Except String (List (String × JVal) × List JVal)
  | st, [] => .ok st
  | (acc, srcs), (o, r, outcome) :: ts =>
      match outcome with
      | .ok (items, pg) =>
          let members := items.filter (fun x => x.isObj)
          run_targets ep coe perPage now
            (members.foldl (fun a m => merge_member ep a o r m) acc,
              srcs ++ [source_ok o r now perPage pg (Int.ofNat members.length)]) ts
      | .error e =>
          if coe then
            run_targets ep coe perPage now (acc, srcs ++ [source_err o r now perPage e]) ts
          else .error e

/-- Sort key of the output people array: `p.get("username") or ""`
(non-string truthy usernames would make Python's sorted raise; roster
people always carry string usernames). -/
def person_sort_key (p : JVal) : String :=
  match jGet p "username" with
  | some (.str s) => s
  | _ => ""

/-- Ordering of the output people array. -/
def person_le (p q : JVal) : Prop := person_sort_key p ≤ person_sort_key q

instance : DecidableRel person_le := fun p q => by
  unfold person_le
  infer_instance

/-- Python `main`'s aggregation and output assembly (lines 337-442),
with the argument-parsing, token prompting and file I/O periphery
stripped: `existing` is the loaded `--merge-existing` document (or the
empty dict), `targets` the deduplicated repo list paired with the fetch
outcomes.  Python's stable `sorted` is modelled by insertion sort with the
same key. -/
def collect_run (existing : JVal) (targets : List Target) (perPage : Int)
    (coe : Bool) (now : String) : Except String JVal :=
  let ep := index_people existing
  let eg := match jGet existing "groups" with
    | some (.arr gs) => gs
    | _ => []
  match run_targets ep coe perPage now ([], []) targets with
  | .error e => .error e
  | .ok (acc, srcs) =>
      .ok (JVal.obj [
        ("schemaVersion", .str "team.v1"),
        ("updatedAt", .str now),
        ("team", .str (pyStr ((jGet existing "team").getD (.str "")))),
        ("sources", .arr srcs),
        ("groups", .arr eg),
        ("people", .arr (List.insertionSort person_le (acc.map Prod.snd)))])

/-- People array of a run result ([] when the run aborted). -/
def run_people (r : Except String JVal) : List JVal :=
  match r with
  | .ok d => doc_people d
  | .error _ => []

/-- Sources array of a roster document. -/
def doc_sources (d : JVal) : List JVal :=
  match jGet d "sources" with
  | some (.arr xs) => xs
  | _ => []

end CollectGitcodeMembers

open CollectGitcodeMembers in
/-- C2 counterexample: a roster whose only person is "alice", run through
an ingestion whose single repository fetch succeeds with zero members,
produces an output roster with an empty people array — the prior person is
dropped, not kept. -/
theorem claim_C2_counterexample :
    (JVal.obj [("username", .str "alice")]) ∈
      doc_people (JVal.obj [("people", .arr [JVal.obj [("username", .str "alice")]])]) ∧
    run_people (collect_run
      (JVal.obj [("people", .arr [JVal.obj [("username", .str "alice")]])])
      [("o", "r", .ok ([], 1))] 100 true "T") = [] := by
  constructor
  · decide
  · rfl

theorem lookupKV_mem (kvs : List (String × JVal)) (u : String) (v : JVal)
    (h : lookupKV kvs u = some v) : (u, v) ∈ kvs := by
  induction kvs with
  | nil => simp [lookupKV] at h
  | cons kv t ih =>
      obtain ⟨k₀, v₀⟩ := kv
      by_cases hk : k₀ = u
      · subst hk
        simp [lookupKV] at h
        simp [h]
      · simp [lookupKV, hk] at h
        simp [ih h]

theorem mem_setKV (kvs : List (String × JVal)) (k : String) (v : JVal)
    (kv' : String × JVal) (h : kv' ∈ setKV kvs k v) : kv' ∈ kvs ∨ kv' = (k, v) := by
  induction kvs with
  | nil => simp [setKV] at h; simp [h]
  | cons kv t ih =>
      obtain ⟨k₀, v₀⟩ := kv
      by_cases hk : k₀ = k
      · simp [setKV, hk] at h
        rcases h with h | h
        · simp [h]
        · simp [h]
      · simp [setKV, hk] at h
        rcases h with h | h
        · simp [h]
        · rcases ih h with h' | h'
          · simp [h']
          · simp [h']

namespace CollectGitcodeMembers

theorem member_valid_username_stripped (m : JVal) (u : String)
    (h : member_valid_username m = some u) : pyStrip u = u := by
  unfold member_valid_username at h
  cases hj : jGet m "username" with
  | none => rw [hj] at h; simp at h
  | some v =>
      rw [hj] at h
      cases v with
      | str s =>
          by_cases hs : pyStrip s = ""
          · simp [hs] at h
          · simp [hs] at h
            rw [← h, pyStrip_idem]
      | null => simp at h
      | bool b => simp at h
      | num n => simp at h
      | arr a => simp at h
      | obj o => simp at h

theorem member_observation_of_valid (o r : String) (m : JVal) (u : String)
    (h : member_valid_username m = some u) :
    ∃ inc, member_observation o r m = some (u, inc) := by
  unfold member_observation
  rw [h]
  exact ⟨_, rfl⟩

theorem member_observation_valid (o r : String) (m : JVal) (u : String) (inc : JVal)
    (h : member_observation o r m = some (u, inc)) :
    member_valid_username m = some u := by
  unfold member_observation at h
  cases hv : member_valid_username m with
  | none => rw [hv] at h; simp at h
  | some u' =>
      rw [hv] at h
      simp at h
      rw [← h.1]

theorem member_observation_username (o r : String) (m : JVal) (u : String) (inc : JVal)
    (h : member_observation o r m = some (u, inc)) :
    jGet inc "username" = some (.str u) := by
  unfold member_observation at h
  cases hv : member_valid_username m with
  | none => rw [hv] at h; simp at h
  | some u' =>
      rw [hv] at h
      simp at h
      rw [← h.2, ← h.1]
      rfl

/-- A state entry is good when its person carries a string username whose
strip equals the map key. -/
def good_entry (u : String) (p : JVal) : Prop :=
  ∃ s, jGet p "username" = some (.str s) ∧ pyStrip s = u

theorem merge_person_username (e i : JVal) :
    jGet (merge_person e i) "username" = jGet e "username" :=
  merge_person_get_other e i "username" (by decide) (by decide) (by decide)
    (by decide) (by decide) (by decide) (by decide) (by decide) (by decide) (by decide)

theorem index_people_good (ex : JVal) :
    ∀ u p, (u, p) ∈ index_people ex → good_entry u p := by
  unfold index_people
  cases hj : jGet ex "people" with
  | none => simp
  | some v =>
      cases v with
      | arr people =>
          suffices aux : ∀ (ps : List JVal) (acc : List (String × JVal)),
              (∀ u p, (u, p) ∈ acc → good_entry u p) →
              ∀ u p, (u, p) ∈ ps.foldl (fun acc p =>
                match p with
                | .obj pk =>
                    match lookupKV pk "username" with
                    | some (.str s) =>
                        if pyStrip s ≠ "" then setKV acc (pyStrip s) p else acc
                    | _ => acc
                | _ => acc) acc → good_entry u p by
            intro u p h
            exact aux people [] (by simp) u p h
          intro ps
          induction ps with
          | nil => intro acc hacc u p h; exact hacc u p h
          | cons q qs ih =>
              intro acc hacc u p h
              refine ih _ ?_ u p h
              intro u' p' h'
              cases q with
              | obj pk =>
                  cases hq : lookupKV pk "username" with
                  | some w =>
                      cases w with
                      | str s =>
                          by_cases hs : pyStrip s ≠ ""
                          · simp only [hq] at h'
                            rw [if_pos hs] at h'
                            rcases mem_setKV _ _ _ _ h' with hmem | heq
                            · exact hacc u' p' hmem
                            · injection heq with h1 h2
                              subst h1
                              subst h2
                              exact ⟨s, by simp [hq], rfl⟩
                          · simp only [hq] at h'
                            rw [if_neg hs] at h'
                            exact hacc u' p' h'
                      | null => simp only [hq] at h'; exact hacc u' p' h'
                      | bool b => simp only [hq] at h'; exact hacc u' p' h'
                      | num n => simp only [hq] at h'; exact hacc u' p' h'
                      | arr a => simp only [hq] at h'; exact hacc u' p' h'
                      | obj o => simp only [hq] at h'; exact hacc u' p' h'
                  | none => simp only [hq] at h'; exact hacc u' p' h'
              | null => exact hacc u' p' h'
              | bool b => exact hacc u' p' h'
              | num n => exact hacc u' p' h'
              | str s => exact hacc u' p' h'
              | arr a => exact hacc u' p' h'
      | null => simp
      | bool b => simp
      | num n => simp
      | str s => simp
      | obj o => simp

end CollectGitcodeMembers

namespace CollectGitcodeMembers

theorem merge_member_good (ep acc : List (String × JVal)) (o r : String) (m : JVal)
    (hep : ∀ u p, (u, p) ∈ ep → good_entry u p)
    (hacc : ∀ u p, (u, p) ∈ acc → good_entry u p) :
    ∀ u p, (u, p) ∈ merge_member ep acc o r m → good_entry u p := by
  intro u p h
  unfold merge_member at h
  cases hobs : member_observation o r m with
  | none => rw [hobs] at h; exact hacc u p h
  | some up =>
      obtain ⟨u₀, inc⟩ := up
      rw [hobs] at h
      dsimp only at h
      have hincusr := member_observation_username o r m u₀ inc hobs
      have hstrip : pyStrip u₀ = u₀ :=
        member_valid_username_stripped m u₀ (member_observation_valid o r m u₀ inc hobs)
      cases hprior : lookupKV acc u₀ with
      | some prior =>
          rw [hprior] at h
          rcases mem_setKV _ _ _ _ h with hmem | heq
          · exact hacc u p hmem
          · injection heq with h1 h2
            subst h1
            subst h2
            obtain ⟨s, hs1, hs2⟩ := hacc u prior (lookupKV_mem _ _ _ hprior)
            exact ⟨s, by rw [merge_person_username]; exact hs1, hs2⟩
      | none =>
          rw [hprior] at h
          cases hex : lookupKV ep u₀ with
          | some ex =>
              rw [hex] at h
              rcases List.mem_append.mp h with hmem | heq
              · exact hacc u p hmem
              · simp only [List.mem_singleton] at heq
                injection heq with h1 h2
                subst h1
                subst h2
                obtain ⟨s, hs1, hs2⟩ := hep u ex (lookupKV_mem _ _ _ hex)
                exact ⟨s, by rw [merge_person_username]; exact hs1, hs2⟩
          | none =>
              rw [hex] at h
              rcases List.mem_append.mp h with hmem | heq
              · exact hacc u p hmem
              · simp only [List.mem_singleton] at heq
                injection heq with h1 h2
                subst h1
                subst h2
                exact ⟨u, hincusr, hstrip⟩

/-- Dict-valued raw members of a successful target's fetch result. -/
def target_members : Target → List JVal
  | (_, _, .ok (items, _)) => items.filter (fun x => x.isObj)
  | (_, _, .error _) => []

/-- A username observed by the run: carried by some dict member of some
successful fetch, as a string that is non-empty after strip. -/
def observed (targets : List Target) (u : String) : Prop :=
  ∃ t ∈ targets, ∃ m ∈ target_members t, member_valid_username m = some u

theorem merge_member_keys (ep acc : List (String × JVal)) (o r : String) (m : JVal)
    (u : String) (p : JVal) (h : (u, p) ∈ merge_member ep acc o r m) :
    (∃ p', (u, p') ∈ acc) ∨ member_valid_username m = some u := by
  unfold merge_member at h
  cases hobs : member_observation o r m with
  | none => rw [hobs] at h; exact Or.inl ⟨p, h⟩
  | some up =>
      obtain ⟨u₀, inc⟩ := up
      rw [hobs] at h
      dsimp only at h
      have hvu := member_observation_valid o r m u₀ inc hobs
      cases hprior : lookupKV acc u₀ with
      | some prior =>
          rw [hprior] at h
          rcases mem_setKV _ _ _ _ h with hmem | heq
          · exact Or.inl ⟨p, hmem⟩
          · injection heq with h1 h2
            subst h1
            exact Or.inr hvu
      | none =>
          rw [hprior] at h
          cases hex : lookupKV ep u₀ with
          | some ex =>
              rw [hex] at h
              rcases List.mem_append.mp h with hmem | heq
              · exact Or.inl ⟨p, hmem⟩
              · simp only [List.mem_singleton] at heq
                injection heq with h1 h2
                subst h1
                exact Or.inr hvu
          | none =>
              rw [hex] at h
              rcases List.mem_append.mp h with hmem | heq
              · exact Or.inl ⟨p, hmem⟩
              · simp only [List.mem_singleton] at heq
                injection heq with h1 h2
                subst h1
                exact Or.inr hvu

theorem foldl_merge_good (ep : List (String × JVal)) (o r : String)
    (hep : ∀ u p, (u, p) ∈ ep → good_entry u p) :
    ∀ (members : List JVal) (acc : List (String × JVal)),
      (∀ u p, (u, p) ∈ acc → good_entry u p) →
      ∀ u p, (u, p) ∈ members.foldl (fun a m => merge_member ep a o r m) acc →
        good_entry u p := by
  intro members
  induction members with
  | nil => intro acc hacc u p h; exact hacc u p h
  | cons m ms ih =>
      intro acc hacc u p h
      exact ih _ (merge_member_good ep acc o r m hep hacc) u p h

theorem foldl_merge_keys (ep : List (String × JVal)) (o r : String) :
    ∀ (members : List JVal) (acc : List (String × JVal)) (u : String) (p : JVal),
      (u, p) ∈ members.foldl (fun a m => merge_member ep a o r m) acc →
      (∃ p', (u, p') ∈ acc) ∨ ∃ m ∈ members, member_valid_username m = some u := by
  intro members
  induction members with
  | nil => intro acc u p h; exact Or.inl ⟨p, h⟩
  | cons m ms ih =>
      intro acc u p h
      rcases ih _ u p h with hmem | ⟨m', hm', hvu⟩
      · obtain ⟨p', hp'⟩ := hmem
        rcases merge_member_keys ep acc o r m u p' hp' with hmem' | hvu
        · exact Or.inl hmem'
        · exact Or.inr ⟨m, List.mem_cons_self m ms, hvu⟩
      · exact Or.inr ⟨m', List.mem_cons_of_mem m hm', hvu⟩

end CollectGitcodeMembers

namespace CollectGitcodeMembers

theorem merge_member_key_mono (ep acc : List (String × JVal)) (o r : String)
    (m : JVal) (u : String) (h : (lookupKV acc u).isSome = true) :
    (lookupKV (merge_member ep acc o r m) u).isSome = true := by
  unfold merge_member
  cases hobs : member_observation o r m with
  | none => exact h
  | some up =>
      obtain ⟨u₀, inc⟩ := up
      dsimp only
      cases hprior : lookupKV acc u₀ with
      | some prior =>
          rw [lookupKV_setKV]
          split
          · simp
          · exact h
      | none =>
          obtain ⟨v, hv⟩ := Option.isSome_iff_exists.mp h
          cases hex : lookupKV ep u₀ with
          | some ex => rw [lookupKV_append_left _ _ _ _ hv]; rfl
          | none => rw [lookupKV_append_left _ _ _ _ hv]; rfl

theorem merge_member_key_self (ep acc : List (String × JVal)) (o r : String)
    (m : JVal) (u : String) (inc : JVal)
    (hobs : member_observation o r m = some (u, inc)) :
    (lookupKV (merge_member ep acc o r m) u).isSome = true := by
  unfold merge_member
  rw [hobs]
  dsimp only
  cases hprior : lookupKV acc u with
  | some prior =>
      rw [lookupKV_setKV, if_pos rfl]
      rfl
  | none =>
      have hone : ∀ x : JVal, lookupKV [(u, x)] u = some x := by
        intro x
        simp [lookupKV]
      cases hex : lookupKV ep u with
      | some ex => rw [lookupKV_append_right _ _ _ hprior, hone]; rfl
      | none => rw [lookupKV_append_right _ _ _ hprior, hone]; rfl

theorem foldl_key_mono (ep : List (String × JVal)) (o r : String) :
    ∀ (members : List JVal) (acc : List (String × JVal)) (u : String),
      (lookupKV acc u).isSome = true →
      (lookupKV (members.foldl (fun a m => merge_member ep a o r m) acc) u).isSome = true := by
  intro members
  induction members with
  | nil => intro acc u h; exact h
  | cons m ms ih =>
      intro acc u h
      exact ih _ u (merge_member_key_mono ep acc o r m u h)

theorem foldl_key_est (ep : List (String × JVal)) (o r : String) :
    ∀ (members : List JVal) (acc : List (String × JVal)) (m : JVal) (u : String),
      m ∈ members → member_valid_username m = some u →
      (lookupKV (members.foldl (fun a m => merge_member ep a o r m) acc) u).isSome = true := by
  intro members
  induction members with
  | nil => intro acc m u h; simp at h
  | cons m₀ ms ih =>
      intro acc m u hm hvu
      rcases List.mem_cons.mp hm with heq | hmem
      · subst heq
        obtain ⟨inc, hobs⟩ := member_observation_of_valid o r m u hvu
        exact foldl_key_mono ep o r ms _ u (merge_member_key_self ep acc o r m u inc hobs)
      · exact ih _ m u hmem hvu

theorem run_targets_key_mono (ep : List (String × JVal)) (coe : Bool) (perPage : Int)
    (now : String) :
    ∀ (targets : List Target) (acc : List (String × JVal)) (srcs : List JVal)
      (acc' : List (String × JVal)) (srcs' : List JVal) (u : String),
      (lookupKV acc u).isSome = true →
      run_targets ep coe perPage now (acc, srcs) targets = .ok (acc', srcs') →
      (lookupKV acc' u).isSome = true := by
  intro targets
  induction targets with
  | nil =>
      intro acc srcs acc' srcs' u hu h
      simp only [run_targets, Except.ok.injEq] at h
      obtain ⟨h1, h2⟩ := Prod.mk.injEq .. ▸ h
      rw [← h1]
      exact hu
  | cons t ts ih =>
      intro acc srcs acc' srcs' u hu h
      obtain ⟨o, r, outcome⟩ := t
      cases outcome with
      | ok pr =>
          obtain ⟨items, pg⟩ := pr
          simp only [run_targets] at h
          exact ih _ _ _ _ u (foldl_key_mono ep o r _ acc u hu) h
      | error e =>
          simp only [run_targets] at h
          cases coe with
          | true => exact ih _ _ _ _ u hu h
          | false => simp at h

theorem run_targets_key_est (ep : List (String × JVal)) (coe : Bool) (perPage : Int)
    (now : String) :
    ∀ (targets : List Target) (acc : List (String × JVal)) (srcs : List JVal)
      (acc' : List (String × JVal)) (srcs' : List JVal)
      (t : Target) (m : JVal) (u : String),
      t ∈ targets → m ∈ target_members t → member_valid_username m = some u →
      run_targets ep coe perPage now (acc, srcs) targets = .ok (acc', srcs') →
      (lookupKV acc' u).isSome = true := by
  intro targets
  induction targets with
  | nil => intro acc srcs acc' srcs' t m u ht; simp at ht
  | cons t₀ ts ih =>
      intro acc srcs acc' srcs' t m u ht hm hvu h
      rcases List.mem_cons.mp ht with heq | hmem
      · subst heq
        obtain ⟨o, r, outcome⟩ := t
        cases outcome with
        | ok pr =>
            obtain ⟨items, pg⟩ := pr
            simp only [run_targets] at h
            simp only [target_members] at hm
            exact run_targets_key_mono ep coe perPage now ts _ _ _ _ u
              (foldl_key_est ep o r _ acc m u hm hvu) h
        | error e => simp [target_members] at hm
      · obtain ⟨o, r, outcome⟩ := t₀
        cases outcome with
        | ok pr =>
            obtain ⟨items, pg⟩ := pr
            simp only [run_targets] at h
            exact ih _ _ _ _ t m u hmem hm hvu h
        | error e =>
            simp only [run_targets] at h
            cases coe with
            | true => exact ih _ _ _ _ t m u hmem hm hvu h
            | false => simp at h

theorem run_targets_good (ep : List (String × JVal)) (coe : Bool) (perPage : Int)
    (now : String) (hep : ∀ u p, (u, p) ∈ ep → good_entry u p) :
    ∀ (targets : List Target) (acc : List (String × JVal)) (srcs : List JVal)
      (acc' : List (String × JVal)) (srcs' : List JVal),
      (∀ u p, (u, p) ∈ acc → good_entry u p) →
      run_targets ep coe perPage now (acc, srcs) targets = .ok (acc', srcs') →
      ∀ u p, (u, p) ∈ acc' → good_entry u p := by
  intro targets
  induction targets with
  | nil =>
      intro acc srcs acc' srcs' hacc h
      simp only [run_targets, Except.ok.injEq] at h
      obtain ⟨h1, h2⟩ := Prod.mk.injEq .. ▸ h
      rw [← h1]
      exact hacc
  | cons t ts ih =>
      intro acc srcs acc' srcs' hacc h
      obtain ⟨o, r, outcome⟩ := t
      cases outcome with
      | ok pr =>
          obtain ⟨items, pg⟩ := pr
          simp only [run_targets] at h
          exact ih _ _ _ _ (foldl_merge_good ep o r hep _ acc hacc) h
      | error e =>
          simp only [run_targets] at h
          cases coe with
          | true => exact ih _ _ _ _ hacc h
          | false => simp at h

theorem run_targets_keys (ep : List (String × JVal)) (coe : Bool) (perPage : Int)
    (now : String) :
    ∀ (targets : List Target) (acc : List (String × JVal)) (srcs : List JVal)
      (acc' : List (String × JVal)) (srcs' : List JVal) (u : String) (p : JVal),
      run_targets ep coe perPage now (acc, srcs) targets = .ok (acc', srcs') →
      (u, p) ∈ acc' →
      (∃ p', (u, p') ∈ acc) ∨ observed targets u := by
  intro targets
  induction targets with
  | nil =>
      intro acc srcs acc' srcs' u p h hm
      simp only [run_targets, Except.ok.injEq] at h
      obtain ⟨h1, h2⟩ := Prod.mk.injEq .. ▸ h
      rw [← h1] at hm
      exact Or.inl ⟨p, hm⟩
  | cons t ts ih =>
      intro acc srcs acc' srcs' u p h hm
      obtain ⟨o, r, outcome⟩ := t
      cases outcome with
      | ok pr =>
          obtain ⟨items, pg⟩ := pr
          simp only [run_targets] at h
          rcases ih _ _ _ _ u p h hm with hacc | hobs
          · obtain ⟨p', hp'⟩ := hacc
            rcases foldl_merge_keys ep o r _ acc u p' hp' with hacc' | ⟨m, hmm, hvu⟩
            · exact Or.inl hacc'
            · exact Or.inr ⟨(o, r, .ok (items, pg)), List.mem_cons_self _ _,
                m, by simpa [target_members] using hmm, hvu⟩
          · obtain ⟨t', ht', hrest⟩ := hobs
            exact Or.inr ⟨t', List.mem_cons_of_mem _ ht', hrest⟩
      | error e =>
          simp only [run_targets] at h
          cases coe with
          | true =>
              rcases ih _ _ _ _ u p h hm with hacc | hobs
              · exact Or.inl hacc
              · obtain ⟨t', ht', hrest⟩ := hobs
                exact Or.inr ⟨t', List.mem_cons_of_mem _ ht', hrest⟩
          | false => simp at h

end CollectGitcodeMembers

theorem doc_people_out (now : String) (t : JVal) (ss gg pp : List JVal) :
    doc_people (JVal.obj [("schemaVersion", .str "team.v1"), ("updatedAt", .str now),
      ("team", t), ("sources", .arr ss), ("groups", .arr gg), ("people", .arr pp)]) = pp := by
  rfl

open CollectGitcodeMembers in
/-- C2 (amended): every person record in the output roster of an ingestion
run carries a username observed among the run's fetched members — the output
people array is rebuilt exclusively from the fresh fetch results (prior
roster records only contribute curated fields to usernames re-observed in
the run), so a prior person absent from all fresh fetches is dropped from
the output, not kept with stale repos entries. -/
theorem claim_C2 (existing : JVal) (targets : List Target) (perPage : Int)
    (coe : Bool) (now : String) (d : JVal)
    (hrun : collect_run existing targets perPage coe now = Except.ok d)
    (p : JVal) (hp : p ∈ doc_people d) :
    ∃ s, jGet p "username" = some (.str s) ∧ observed targets (pyStrip s) := by
  simp only [collect_run] at hrun
  cases hr : run_targets (index_people existing) coe perPage now ([], []) targets with
  | error e => rw [hr] at hrun; exact absurd hrun (by simp)
  | ok st =>
      obtain ⟨acc, srcs⟩ := st
      rw [hr] at hrun
      dsimp only at hrun
      injection hrun with hd
      subst hd
      rw [doc_people_out] at hp
      have hp' : p ∈ acc.map Prod.snd :=
        (List.perm_insertionSort person_le (acc.map Prod.snd)).mem_iff.mp hp
      obtain ⟨uq, hmem, hq⟩ := List.mem_map.mp hp'
      obtain ⟨u, q⟩ := uq
      dsimp only at hq
      subst hq
      obtain ⟨s, hs1, hs2⟩ := run_targets_good (index_people existing) coe perPage now
        (index_people_good existing) targets [] [] acc srcs
        (by intro u₁ p₁ h₁; exact absurd h₁ (List.not_mem_nil _)) hr u q hmem
      rcases run_targets_keys (index_people existing) coe perPage now targets [] [] acc srcs
        u q hr hmem with ⟨p', hmemnil⟩ | hobs
      · exact absurd hmemnil (List.not_mem_nil _)
      · refine ⟨s, hs1, ?_⟩
        rw [hs2]
        exact hobs

open CollectGitcodeMembers in
theorem claim_C2_witness :
    ∃ s, jGet (JVal.obj [("username", .str "alice"), ("gitcodeId", .str ""),
        ("realName", .str "alice"), ("email", .str ""), ("isConfirmed", .bool false),
        ("isCommitter", .bool false), ("isLeader", .bool false), ("notes", .str ""),
        ("groups", .arr []), ("repos", .arr [JVal.obj [("owner", .str "o"),
          ("repo", .str "r"), ("permission", .str ""), ("roleName", .str ""),
          ("roleNameCn", .str ""), ("accessLevel", JVal.null), ("permissions", .obj [])]])])
        "username" = some (.str s) ∧
      observed [("o", "r", Except.ok ([JVal.obj [("username", .str "alice")]], 1))]
        (pyStrip s) :=
  claim_C2 (JVal.obj [])
    [("o", "r", Except.ok ([JVal.obj [("username", .str "alice")]], 1))] 100 true "T"
    (JVal.obj [("schemaVersion", .str "team.v1"), ("updatedAt", .str "T"),
      ("team", .str ""),
      ("sources", .arr [JVal.obj [("owner", .str "o"), ("repo", .str "r"),
        ("fetchedAt", .str "T"), ("pageSize", .num 100), ("pagesFetched", .num 1),
        ("memberCount", .num 1)]]),
      ("groups", .arr []),
      ("people", .arr [JVal.obj [("username", .str "alice"), ("gitcodeId", .str ""),
        ("realName", .str "alice"), ("email", .str ""), ("isConfirmed", .bool false),
        ("isCommitter", .bool false), ("isLeader", .bool false), ("notes", .str ""),
        ("groups", .arr []), ("repos", .arr [JVal.obj [("owner", .str "o"),
          ("repo", .str "r"), ("permission", .str ""), ("roleName", .str ""),
          ("roleNameCn", .str ""), ("accessLevel", JVal.null),
          ("permissions", .obj [])]])]])])
    (by rfl)
    (JVal.obj [("username", .str "alice"), ("gitcodeId", .str ""),
      ("realName", .str "alice"), ("email", .str ""), ("isConfirmed", .bool false),
      ("isCommitter", .bool false), ("isLeader", .bool false), ("notes", .str ""),
      ("groups", .arr []), ("repos", .arr [JVal.obj [("owner", .str "o"),
        ("repo", .str "r"), ("permission", .str ""), ("roleName", .str ""),
        ("roleNameCn", .str ""), ("accessLevel", JVal.null), ("permissions", .obj [])]])])
    (by decide)

namespace CollectGitcodeMembers

/-- Source entry produced for one target: the success entry with the
filtered member count, or the failure entry. -/
def target_source (perPage : Int) (now : String) : Target → JVal
  | (o, r, .ok (items, pg)) =>
      source_ok o r now perPage pg (Int.ofNat (items.filter (fun x => x.isObj)).length)
  | (o, r, .error e) => source_err o r now perPage e

theorem run_targets_total (ep : List (String × JVal)) (perPage : Int) (now : String) :
    ∀ (targets : List Target) (st : List (String × JVal) × List JVal),
      ∃ st', run_targets ep true perPage now st targets = .ok st' := by
  intro targets
  induction targets with
  | nil => intro st; exact ⟨st, rfl⟩
  | cons t ts ih =>
      intro st
      obtain ⟨acc, srcs⟩ := st
      obtain ⟨o, r, outcome⟩ := t
      cases outcome with
      | ok pr =>
          obtain ⟨items, pg⟩ := pr
          simp only [run_targets]
          exact ih _
      | error e =>
          simp only [run_targets]
          rw [if_pos trivial]
          exact ih _

theorem run_targets_sources (ep : List (String × JVal)) (perPage : Int) (now : String) :
    ∀ (targets : List Target) (acc : List (String × JVal)) (srcs : List JVal)
      (acc' : List (String × JVal)) (srcs' : List JVal),
      run_targets ep true perPage now (acc, srcs) targets = .ok (acc', srcs') →
      srcs' = srcs ++ targets.map (target_source perPage now) := by
  intro targets
  induction targets with
  | nil =>
      intro acc srcs acc' srcs' h
      simp only [run_targets, Except.ok.injEq] at h
      obtain ⟨h1, h2⟩ := Prod.mk.injEq .. ▸ h
      rw [← h2]
      simp
  | cons t ts ih =>
      intro acc srcs acc' srcs' h
      obtain ⟨o, r, outcome⟩ := t
      cases outcome with
      | ok pr =>
          obtain ⟨items, pg⟩ := pr
          simp only [run_targets] at h
          rw [ih _ _ _ _ h]
          simp [target_source, List.append_assoc]
      | error e =>
          simp only [run_targets] at h
          rw [if_pos trivial] at h
          rw [ih _ _ _ _ h]
          simp [target_source, List.append_assoc]

end CollectGitcodeMembers

theorem doc_sources_out (now : String) (t : JVal) (ss gg pp : List JVal) :
    CollectGitcodeMembers.doc_sources (JVal.obj [("schemaVersion", .str "team.v1"),
      ("updatedAt", .str now), ("team", t), ("sources", .arr ss), ("groups", .arr gg),
      ("people", .arr pp)]) = ss := by
  rfl

open CollectGitcodeMembers in
/-- C9: with continue-on-error enabled the aggregation run always succeeds;
a failing target at position i yields the Source entry at position i with
pagesFetched 0, memberCount 0 and a notes field holding "error: " followed
by the first line of the error message; and every valid member fetched from
any (necessarily succeeding) target still yields a Person record in the
output people array. -/
theorem claim_C9 (existing : JVal) (targets : List Target) (perPage : Int) (now : String) :
    (∃ d, collect_run existing targets perPage true now = Except.ok d) ∧
    ∀ d, collect_run existing targets perPage true now = Except.ok d →
      (∀ (i : Nat) (o r e : String), targets.get? i = some (o, r, Except.error e) →
        (doc_sources d).get? i = some (JVal.obj [("owner", .str o), ("repo", .str r),
          ("fetchedAt", .str now), ("pageSize", .num perPage), ("pagesFetched", .num 0),
          ("memberCount", .num 0), ("notes", .str ("error: " ++ pyFirstLine e))])) ∧
      (∀ (t : Target) (m : JVal) (u : String), t ∈ targets → m ∈ target_members t →
        member_valid_username m = some u →
        ∃ p, p ∈ doc_people d ∧ ∃ s, jGet p "username" = some (.str s) ∧ pyStrip s = u) := by
  constructor
  · cases hc : collect_run existing targets perPage true now with
    | ok d => exact ⟨d, rfl⟩
    | error e =>
        obtain ⟨st', h⟩ := run_targets_total (index_people existing) perPage now targets ([], [])
        obtain ⟨acc, srcs⟩ := st'
        simp only [collect_run] at hc
        rw [h] at hc
        dsimp only at hc
        exact absurd hc (by simp)
  · intro d hrun
    simp only [collect_run] at hrun
    cases hr : run_targets (index_people existing) true perPage now ([], []) targets with
    | error e => rw [hr] at hrun; exact absurd hrun (by simp)
    | ok st =>
        obtain ⟨acc, srcs⟩ := st
        rw [hr] at hrun
        dsimp only at hrun
        injection hrun with hd
        subst hd
        constructor
        · intro i o r e hi
          have hsrcs : srcs = targets.map (target_source perPage now) := by
            simpa using run_targets_sources (index_people existing) perPage now
              targets [] [] acc srcs hr
          rw [doc_sources_out, hsrcs, List.get?_map, hi]
          rfl
        · intro t m u ht hm hvu
          have hkey := run_targets_key_est (index_people existing) true perPage now targets
            [] [] acc srcs t m u ht hm hvu hr
          obtain ⟨q, hq⟩ := Option.isSome_iff_exists.mp hkey
          have hmem : (u, q) ∈ acc := lookupKV_mem acc u q hq
          obtain ⟨s, hs1, hs2⟩ := run_targets_good (index_people existing) true perPage now
            (index_people_good existing) targets [] [] acc srcs
            (by intro u₁ p₁ h₁; exact absurd h₁ (List.not_mem_nil _)) hr u q hmem
          refine ⟨q, ?_, s, hs1, hs2⟩
          rw [doc_people_out]
          exact (List.perm_insertionSort person_le (acc.map Prod.snd)).mem_iff.mpr
            (List.mem_map.mpr ⟨(u, q), hmem, rfl⟩)

open CollectGitcodeMembers in
/-- Three fetch targets, the middle one failing with a two-line error. -/
def c9targets : List CollectGitcodeMembers.Target :=
  [("o1", "r1", Except.ok ([JVal.obj [("username", .str "alice")]], 1)),
   ("o2", "r2", Except.error "boom\nmore"),
   ("o3", "r3", Except.ok ([JVal.obj [("username", .str "bob")]], 1))]

open CollectGitcodeMembers in
/-- The output document of running the aggregator on those targets. -/
def c9doc : JVal :=
  match collect_run (JVal.obj []) c9targets 100 true "T" with
  | .ok d => d
  | .error _ => JVal.null

open CollectGitcodeMembers in
theorem claim_C9_witness :
    (∃ d, collect_run (JVal.obj []) c9targets 100 true "T" = Except.ok d) ∧
    (doc_sources c9doc).get? 1 = some (JVal.obj [("owner", .str "o2"), ("repo", .str "r2"),
      ("fetchedAt", .str "T"), ("pageSize", .num 100), ("pagesFetched", .num 0),
      ("memberCount", .num 0), ("notes", .str ("error: " ++ pyFirstLine "boom\nmore"))]) ∧
    (∃ p, p ∈ doc_people c9doc ∧ ∃ s, jGet p "username" = some (.str s) ∧
      pyStrip s = "alice") :=
  ⟨(claim_C9 (JVal.obj []) c9targets 100 "T").1,
   ((claim_C9 (JVal.obj []) c9targets 100 "T").2 c9doc (by rfl)).1 1 "o2" "r2" "boom\nmore"
     (by rfl),
   ((claim_C9 (JVal.obj []) c9targets 100 "T").2 c9doc (by rfl)).2
     ("o1", "r1", Except.ok ([JVal.obj [("username", .str "alice")]], 1))
     (JVal.obj [("username", .str "alice")]) "alice"
     (by exact List.mem_cons_self _ _) (by decide) (by rfl)⟩

namespace RefreshMemberRoles

/-- Member-field extraction and in-place update of one repo entry for a
matched role-map member (lines 255-269): the five role fields are set
(permissions falls back to the entry's current value when the fetched
permissions dict is empty), and a notes string starting with "error:" is
cleared. -/
def update_repo_entry (m : JVal) (rk : List (String × JVal)) : List (String × JVal) :=
  let permission_str : JVal := match jGet m "permission" with
    | some (.str s) => .str s
    | _ => .str ""
  let role_name : JVal := match jGet m "role_name" with
    | some (.str s) => .str s
    | _ => .str ""
  let role_name_cn : JVal := match jGet m "role_name_cn" with
    | some (.str s) => .str s
    | _ => .str ""
  let access_level : JVal := match jGet m "access_level" with
    | some (.num n) => .num n
    | some (.bool b) => .bool b
    | _ => .null
  let perm_obj : JVal := match jGet m "permissions" with
    | some (.obj pk) => .obj pk
    | _ => .obj []
  let r₁ := setKV rk "permission" permission_str
  let r₂ := setKV r₁ "roleName" role_name
  let r₃ := setKV r₂ "roleNameCn" role_name_cn
  let r₄ := setKV r₃ "accessLevel" access_level
  let r₅ := setKV r₄ "permissions"
    (if pyTruthy perm_obj then perm_obj else (lookupKV r₄ "permissions").getD (.obj []))
  match lookupKV r₅ "notes" with
  | some (.str s) =>
      if listStartsWith "error:".data s.data then setKV r₅ "notes" (.str "") else r₅
  | _ => r₅

/-- Role-map construction from a fetched collaborator list (lines 242-247):
keyed by stripped username, a later member wins. -/
def build_role_map (members : List JVal) : List (String × JVal) :=
  members.foldl (fun acc m =>
    match jGet m "username" with
    | some (.str s) => if pyStrip s = "" then acc else setKV acc (pyStrip s) m
    | _ => acc) []

/-- Refresh of one repo entry of an eligible person with username `u`
(lines 173-183 select it, 251-269 update it), `fetch` standing for
`fetch_collaborators`: an entry whose repository fetch fails, or whose
username is absent from (or maps to a falsy member of) the repository role
map, is left unchanged. -/
def refresh_entry (fetch : String → String → Except String (List JVal)) (u : String) :
    JVal → JVal
  | .obj rk =>
      (match lookupKV rk "owner", lookupKV rk "repo" with
      | some (.str o), some (.str rp) =>
          (match fetch o rp with
          | .error _ => .obj rk
          | .ok members =>
              let role_map := build_role_map (members.filter (fun x => x.isObj))
              match lookupKV role_map u with
              | some m => if pyTruthy m then .obj (update_repo_entry m rk) else .obj rk
              | none => .obj rk)
      | _, _ => .obj rk)
  | r => r

/-- Per-person effect of the refresh pass in default mode: a person that is
confirmed (isConfirmed is True, skipped at line 164), or has no valid
username, or whose repos is not a list, contributes no entries and is left
untouched; otherwise each of its repo entries is refreshed in place. -/
def person_refresh (fetch : String → String → Except String (List JVal)) : JVal → JVal
  | .obj kvs =>
      if lookupKV kvs "isConfirmed" = some (.bool true) then .obj kvs
      else
        (match lookupKV kvs "username" with
        | some (.str s) =>
            if pyStrip s = "" then .obj kvs
            else
              (match lookupKV kvs "repos" with
              | some (.arr rs) =>
                  .obj (setKV kvs "repos" (.arr (rs.map (refresh_entry fetch (pyStrip s)))))
              | _ => .obj kvs)
        | _ => .obj kvs)
  | p => p

/-- (owner, repo) keys contributed by one person to `by_repo`
(lines 160-183). -/
def person_entry_keys : JVal → List (String × String)
  | .obj kvs =>
      if lookupKV kvs "isConfirmed" = some (.bool true) then []
      else
        (match lookupKV kvs "username" with
        | some (.str s) =>
            if pyStrip s = "" then []
            else
              (match lookupKV kvs "repos" with
              | some (.arr rs) =>
                  rs.foldl (fun acc r =>
                    match r with
                    | .obj rk =>
                        (match lookupKV rk "owner", lookupKV rk "repo" with
                        | some (.str o), some (.str rp) => acc ++ [(o, rp)]
                        | _, _ => acc)
                    | _ => acc) []
              | _ => [])
        | _ => [])
  | _ => []

/-- Insertion-ordered key set of `by_repo` (lines 226-228). -/
def doc_repo_keys (team : JVal) : List (String × String) :=
  (doc_people team).foldl
    (fun acc p => (person_entry_keys p).foldl
      (fun a k => if k ∈ a then a else a ++ [k]) acc) []

/-- Python tuple ordering on (owner, repo) used by `sorted(by_repo.keys())`. -/
def key_le (a b : String × String) : Prop := a.1 < b.1 ∨ (a.1 = b.1 ∧ a.2 ≤ b.2)

instance : DecidableRel key_le := fun a b => by
  unfold key_le
  infer_instance

/-- First fetch error along the repo key list. -/
def first_bad_key (fetch : String → String → Except String (List JVal)) :
    List (String × String) → Option String
  | [] => none
  | (o, rp) :: ks =>
      match fetch o rp with
      | .error e => some e
      | .ok _ => first_bad_key fetch ks

/-- Python `main` of refresh_member_roles (lines 200-291), with argument
parsing, token prompt and file I/O stripped, in default selection mode (no
--repos filter, no --limit, confirmed people skipped): when
continue-on-error is off and some repository key's fetch fails, the run
raises before writing anything; otherwise each person's eligible repo
entries are updated from their repository's role map, updatedAt is set, and
the committer flags are recomputed (lines 279-280). -/
def refresh_run (fetch : String → String → Except String (List JVal)) (coe : Bool)
    (now : String) (team : JVal) : Except String JVal :=
  match team with
  | .obj tk =>
      (match (if coe then none
              else first_bad_key fetch
                (List.insertionSort key_le (doc_repo_keys (.obj tk)))) with
      | some e => .error e
      | none =>
          let t₁ := match lookupKV tk "people" with
            | some (.arr ps) => setKV tk "people" (.arr (ps.map (person_refresh fetch)))
            | _ => tk
          .ok (recompute_committers (.obj (setKV t₁ "updatedAt" (.str now)))).1)
  | _ => .error "team.json 顶层必须是 object"

theorem jGet_recompute_repos (pkv : List (String × JVal)) :
    jGet (recompute_person (JVal.obj pkv)).1 "repos" = jGet (JVal.obj pkv) "repos" := by
  simp only [recompute_person]
  split
  · simp [jGet_obj, (by decide : ("isCommitterManual" : String) ≠ "repos")]
  · simp [jGet_obj, (by decide : ("isCommitter" : String) ≠ "repos"),
      (by decide : ("isCommitterManual" : String) ≠ "repos")]

end RefreshMemberRoles

open RefreshMemberRoles in
/-- C8: in the default mode of the per-repository role-refresh pass (no
--include-confirmed), a person whose isConfirmed field is true is excluded:
the person record at their position in the output roster carries a repos
field identical to the input one, so none of its entries' role fields
(permission, roleName, roleNameCn, accessLevel, permissions) are modified
by the refresh. -/
theorem claim_C8 (fetch : String → String → Except String (List JVal)) (coe : Bool)
    (now : String) (team d : JVal) (i : Nat) (p : JVal)
    (hrun : refresh_run fetch coe now team = Except.ok d)
    (hp : (doc_people team).get? i = some p)
    (hconf : jGet p "isConfirmed" = some (.bool true)) :
    ∃ q, (doc_people d).get? i = some q ∧ jGet q "repos" = jGet p "repos" := by
  cases team with
  | obj tk =>
      simp only [refresh_run] at hrun
      cases hb : (if coe then none
          else first_bad_key fetch (List.insertionSort key_le (doc_repo_keys (.obj tk)))) with
      | some e => rw [hb] at hrun; exact absurd hrun (by simp)
      | none =>
          rw [hb] at hrun
          dsimp only at hrun
          cases hpe : lookupKV tk "people" with
          | some v =>
              cases v with
              | arr ps =>
                  rw [hpe] at hrun
                  dsimp only at hrun
                  injection hrun with hd
                  subst hd
                  simp only [doc_people, jGet_obj, hpe] at hp
                  have hdp : doc_people (JVal.obj (setKV
                      (setKV tk "people" (.arr (ps.map (person_refresh fetch))))
                      "updatedAt" (.str now))) = ps.map (person_refresh fetch) := by
                    simp [doc_people, jGet_obj, lookupKV_setKV]
                  rw [doc_people_recompute, hdp]
                  refine ⟨(recompute_person (person_refresh fetch p)).1, ?_, ?_⟩
                  · rw [List.get?_map, List.get?_map, hp]
                    rfl
                  · cases p with
                    | obj pkv =>
                        simp only [jGet_obj] at hconf
                        have hskip : person_refresh fetch (JVal.obj pkv) = JVal.obj pkv := by
                          simp only [person_refresh]
                          rw [if_pos hconf]
                        rw [hskip, jGet_recompute_repos]
                    | null => exact absurd hconf (by simp [jGet])
                    | bool b => exact absurd hconf (by simp [jGet])
                    | num n => exact absurd hconf (by simp [jGet])
                    | str s => exact absurd hconf (by simp [jGet])
                    | arr xs => exact absurd hconf (by simp [jGet])
              | null => rw [hpe] at hrun; simp [doc_people, jGet_obj, hpe] at hp
              | bool b => rw [hpe] at hrun; simp [doc_people, jGet_obj, hpe] at hp
              | num n => rw [hpe] at hrun; simp [doc_people, jGet_obj, hpe] at hp
              | str s => rw [hpe] at hrun; simp [doc_people, jGet_obj, hpe] at hp
              | obj o => rw [hpe] at hrun; simp [doc_people, jGet_obj, hpe] at hp
          | none => rw [hpe] at hrun; simp [doc_people, jGet_obj, hpe] at hp
  | null => exact absurd hrun (by simp [refresh_run])
  | bool b => exact absurd hrun (by simp [refresh_run])
  | num n => exact absurd hrun (by simp [refresh_run])
  | str s => exact absurd hrun (by simp [refresh_run])
  | arr xs => exact absurd hrun (by simp [refresh_run])

/-- A confirmed person whose repo entry would be rewritten by the fetched
role map if the person were not excluded. -/
def c8team : JVal :=
  JVal.obj [("people", .arr [JVal.obj [("username", .str "c"),
    ("isConfirmed", .bool true),
    ("repos", .arr [JVal.obj [("owner", .str "o"), ("repo", .str "r"),
      ("roleName", .str "X")]])]])]

open RefreshMemberRoles in
/-- The output document of the refresh run on that roster. -/
def c8doc : JVal :=
  match refresh_run
      (fun _ _ => Except.ok [JVal.obj [("username", .str "c"),
        ("role_name", .str "Committer")]]) true "T" c8team with
  | .ok d => d
  | .error _ => JVal.null

open RefreshMemberRoles in
theorem claim_C8_witness :
    ∃ q, (doc_people c8doc).get? 0 = some q ∧
      jGet q "repos" = jGet (JVal.obj [("username", .str "c"),
        ("isConfirmed", .bool true),
        ("repos", .arr [JVal.obj [("owner", .str "o"), ("repo", .str "r"),
          ("roleName", .str "X")]])]) "repos" :=
  claim_C8
    (fun _ _ => Except.ok [JVal.obj [("username", .str "c"),
      ("role_name", .str "Committer")]]) true "T" c8team c8doc 0
    (JVal.obj [("username", .str "c"), ("isConfirmed", .bool true),
      ("repos", .arr [JVal.obj [("owner", .str "o"), ("repo", .str "r"),
        ("roleName", .str "X")]])])
    (by rfl) (by rfl) (by rfl)
